import Mathlib

/-!
Verification of the OMRA agent-coordination substrate.

Shallow embedding of the coordination components of the repository:
`backend/agents/scheduler.py`, `backend/agents/communication.py`,
`backend/agents/executor.py` and `backend/agents/decision_engine.py`.

Conventions of the embedding:
* Python `datetime`/`time.time()` timestamps are modelled as `Nat` time
  units; the current time is passed explicitly to each operation that
  reads the clock.
* Python dicts are modelled as insertion-ordered association lists with
  an in-place update operation (`updMap`), matching dict semantics
  (unique keys, insertion order preserved, update keeps the position).
* `heapq` priority queues are modelled as lists viewed as multisets:
  `heap[0]` (peek) returns the least entry in the lexicographic order on
  `(priority value, timestamp, task id)` and `heappop` removes it.
* Asynchronous execution of a task/handler is modelled by an explicit
  outcome value (success / cancellation / exception) supplied by the
  environment, since the agent's `run` and the action handlers are
  external collaborators in the source.
* Fire-and-forget event publications (`asyncio.create_task(...)` on the
  event bus) do not mutate any state the verified claims mention and are
  not modelled.
-/

namespace OMRA

/-! ## Scheduler data model (backend/agents/scheduler.py) -/

/-- Model of `AgentType` from backend/agents/core.py: the three agent tiers. -/
inductive AgentType
  | executive
  | manager
  | task
deriving DecidableEq, Repr

/-- Model of `TaskPriority(int, Enum)`: LOW = 3, MEDIUM = 2, HIGH = 1, CRITICAL = 0. -/
inductive TaskPriority
  | low
  | medium
  | high
  | critical
deriving DecidableEq, Repr

/-- Numeric value of a priority, as in the Python `int` enum. -/
def TaskPriority.value : TaskPriority → Nat
  | .low => 3
  | .medium => 2
  | .high => 1
  | .critical => 0

/-- Model of `TaskStatus` from scheduler.py. -/
inductive TaskStatus
  | pending
  | assigned
  | inProgress
  | completed
  | failed
  | cancelled
deriving DecidableEq, Repr

/-- Model of `Task` from scheduler.py (fields relevant to the scheduler's
control flow; payload fields are carried as opaque strings). -/
structure Task where
  taskId : String
  title : String := ""
  description : String := ""
  priority : TaskPriority := .medium
  status : TaskStatus := .pending
  assignedAgentId : Option String := none
  createdAt : Nat := 0
  scheduledFor : Option Nat := none
  completedAt : Option Nat := none
  parentTaskId : Option String := none
  subtaskIds : List String := []
  outputData : Option String := none
  retryCount : Nat := 0
  maxRetries : Nat := 3
  dependencies : List String := []
  requiredAgentType : Option AgentType := none
  timeoutSeconds : Nat := 600
deriving DecidableEq, Repr

/-- Association-list lookup mirroring Python `dict.get` /
`key in dict`. -/
def lookupMap {α : Type} (k : String) : List (String × α) → Option α
  | [] => none
  | (k', v) :: rest => if k' = k then some v else lookupMap k rest

/-- Association-list update mirroring Python `dict[k] = v`: replaces the
binding in place, or appends a new binding at the end. -/
def updMap {α : Type} (k : String) (v : α) : List (String × α) → List (String × α)
  | [] => [(k, v)]
  | (k', v') :: rest => if k' = k then (k, v) :: rest else (k', v') :: updMap k v rest

/-- Association-list removal mirroring Python `del dict[k]`. -/
def delMap {α : Type} (k : String) : List (String × α) → List (String × α)
  | [] => []
  | (k', v') :: rest => if k' = k then rest else (k', v') :: delMap k rest

/-- A priority-queue entry `(priority value, timestamp, task id)` as pushed
by `submit_task`, the requeue paths and the retry path. -/
abbrev QEntry := Nat × Nat × String

/-- Lexicographic comparison of queue entries, as Python tuple `<=`
(`heapq` orders by `<` on the tuples; ties on priority and timestamp are
broken by the task-id string). -/
def entryLE (a b : QEntry) : Bool :=
  a.1 < b.1 ∨ (a.1 = b.1 ∧ (a.2.1 < b.2.1 ∨ (a.2.1 = b.2.1 ∧ (a.2.2 < b.2.2 ∨ a.2.2 = b.2.2))))

/-- The least entry of `e :: rest`, i.e. what `heap[0]` exposes. -/
def foldMin (e : QEntry) (rest : List QEntry) : QEntry :=
  rest.foldl (fun m x => if entryLE m x then m else x) e

/-- Remove the first occurrence of an entry, completing the model of
`heapq.heappop` (the heap is viewed as a multiset of entries). -/
def eraseFirst (x : QEntry) : List QEntry → List QEntry
  | [] => []
  | y :: ys => if y = x then ys else y :: eraseFirst x ys

/-- Availability pools: `self.available_agents`, one ordered list of agent
ids per tier.  `list.append` adds at the end, `available[0]` +
`list.remove` takes the head. -/
structure Avail where
  executive : List String := []
  manager : List String := []
  task : List String := []
deriving DecidableEq, Repr

def Avail.get (av : Avail) : AgentType → List String
  | .executive => av.executive
  | .manager => av.manager
  | .task => av.task

def Avail.set (av : Avail) : AgentType → List String → Avail
  | .executive, l => { av with executive := l }
  | .manager, l => { av with manager := l }
  | .task, l => { av with task := l }

/-- Value of `sum(len(agents) for agents in self.available_agents.values())`. -/
def Avail.total (av : Avail) : Nat :=
  av.executive.length + av.manager.length + av.task.length

/-- State owned by `TaskScheduler`: the priority queue, the task table,
the in-flight executions, the agent registry and the availability pools. -/
structure SchedState where
  taskQueue : List QEntry := []
  tasks : List (String × Task) := []
  activeTasks : List (String × String) := []   -- task id ↦ agent id (the future is external)
  agents : List (String × AgentType) := []     -- agent id ↦ tier
  avail : Avail := {}
deriving DecidableEq, Repr

/-- Port of `TaskScheduler._find_available_agent`: with a required tier, only that
pool is consulted; otherwise a priority-preferred tier is tried first
(CRITICAL/HIGH ↦ executive, MEDIUM ↦ manager, LOW ↦ task) and then the
pools are scanned in tier order executive, manager, task.  Returns the
chosen agent id and the pools with that id removed. -/
def takeTier (av : Avail) (ty : AgentType) : Option (String × Avail) :=
  match av.get ty with
  | [] => none
  | a :: rest => some (a, av.set ty rest)

def findAvailableAgent (t : Task) (av : Avail) : Option (String × Avail) :=
  match t.requiredAgentType with
  | some ty => takeTier av ty
  | none =>
    let preferred :=
      match t.priority with
      | .critical => takeTier av .executive
      | .high => takeTier av .executive
      | .medium => takeTier av .manager
      | .low => takeTier av .task
    match preferred with
    | some r => some r
    | none =>
      match takeTier av .executive with
      | some r => some r
      | none =>
        match takeTier av .manager with
        | some r => some r
        | none => takeTier av .task

/-- Observable outcome of one pass of `TaskScheduler._scheduler_loop`'s
`while` body (each constructor tags the `continue`/assignment branch that
was taken). -/
inductive StepOutcome
  | idleNoTasks
  | idleNoAgents
  | droppedStale (taskId : String)
  | deferredFuture (taskId : String)
  | requeuedDeps (taskId : String)
  | idleNoAgentFor (taskId : String)
  | assigned (taskId agentId : String)
deriving DecidableEq, Repr

/-- Check `all(dep in tasks and tasks[dep].status == COMPLETED)` over the task's
dependency ids — the dependency check of the scheduler loop. -/
def depsMet (tasks : List (String × Task)) (t : Task) : Bool :=
  t.dependencies.all fun dep =>
    match lookupMap dep tasks with
    | some d => d.status = TaskStatus.completed
    | none => false

/-- One pass of `TaskScheduler._scheduler_loop` at time `now`:
peek the least queue entry; drop it if the task is gone or no longer
PENDING; defer if `scheduled_for` is in the future; on an unmet
dependency re-enqueue at `now + 5`; otherwise try to grab an agent and,
on success, pop the entry, mark the task ASSIGNED and record the
in-flight execution (the spawned `_process_task` itself is modelled
separately by `processTask`). -/
def schedulerStep (s : SchedState) (now : Nat) : StepOutcome × SchedState :=
  match s.taskQueue with
  | [] => (.idleNoTasks, s)
  | e :: rest =>
    if s.avail.total = 0 then (.idleNoAgents, s)
    else
      let m := foldMin e rest
      let taskId := m.2.2
      match lookupMap taskId s.tasks with
      | none =>
        (.droppedStale taskId, { s with taskQueue := eraseFirst m s.taskQueue })
      | some t =>
        if t.status ≠ TaskStatus.pending then
          (.droppedStale taskId, { s with taskQueue := eraseFirst m s.taskQueue })
        else match t.scheduledFor with
        | some when_ =>
          if now < when_ then (.deferredFuture taskId, s)
          else schedulerStepReady s now m t
        | none => schedulerStepReady s now m t
where
  /-- The tail of the loop body once the peeked task is PENDING and not
  scheduled for the future. -/
  schedulerStepReady (s : SchedState) (now : Nat) (m : QEntry) (t : Task) :
      StepOutcome × SchedState :=
    let taskId := m.2.2
    if ¬ depsMet s.tasks t then
      (.requeuedDeps taskId,
        { s with taskQueue := (m.1, now + 5, taskId) :: eraseFirst m s.taskQueue })
    else
      match findAvailableAgent t s.avail with
      | none => (.idleNoAgentFor taskId, s)
      | some (agentId, av') =>
        (.assigned taskId agentId,
          { s with
            taskQueue := eraseFirst m s.taskQueue
            tasks := updMap taskId { t with status := TaskStatus.assigned } s.tasks
            activeTasks := updMap taskId agentId s.activeTasks
            avail := av' })

/-- Environment-supplied outcome of running a task on its agent: the
`await agent.run(...)` either returns content, is cancelled, or raises. -/
inductive ExecOutcome
  | success (content : String)
  | cancelled
  | error (msg : String)
deriving DecidableEq, Repr

/-- The status/retry bookkeeping of `TaskScheduler._process_task` applied
to one task, given the execution outcome, at time `now`.  Returns the
updated task together with the backoff delay when the failure branch
re-enqueues it (the queue entry pushed is
`(priority value, now + delay, task id)` with
`scheduled_for = now + delay`, `delay = 2 ** retry_count` computed after
the increment). -/
def processTask (t : Task) (o : ExecOutcome) (agentId : String) (now : Nat) :
    Task × Option Nat :=
  let t := { t with status := TaskStatus.inProgress, assignedAgentId := some agentId }
  match o with
  | .success content =>
    ({ t with status := TaskStatus.completed, outputData := some content,
              completedAt := some now }, none)
  | .cancelled =>
    ({ t with status := TaskStatus.cancelled }, none)
  | .error _ =>
    let t := { t with status := TaskStatus.failed }
    if t.retryCount < t.maxRetries then
      let rc := t.retryCount + 1
      let delay := 2 ^ rc
      ({ t with retryCount := rc, status := TaskStatus.pending,
                scheduledFor := some (now + delay) }, some delay)
    else
      (t, none)

/-- Iterated `_process_task` under an environment whose execution raises
on every attempt: each failing attempt either re-enqueues the task after
its backoff delay (at which time the next attempt runs) or leaves it
FAILED.  Returns the total number of attempts, the list of backoff delays
in order, and the final task. -/
def simulateAlwaysFail (t : Task) (now : Nat) : Nat × List Nat × Task :=
  match h : processTask t (.error "boom") "agent" now with
  | (t', none) => (1, [], t')
  | (t', some d) =>
    have key : t'.retryCount = t.retryCount + 1 ∧ t'.maxRetries = t.maxRetries ∧
        t.retryCount < t.maxRetries := by
      simp only [processTask] at h
      split at h
      next hc =>
        injection h with h1 h2
        subst h1
        exact ⟨rfl, rfl, hc⟩
      next hc => simp at h
    have hlt : t'.maxRetries + 1 - t'.retryCount < t.maxRetries + 1 - t.retryCount := by
      omega
    let r := simulateAlwaysFail t' (now + d)
    (r.1 + 1, d :: r.2.1, r.2.2)
termination_by t.maxRetries + 1 - t.retryCount
decreasing_by exact hlt

/-- The in-flight-execution handling of `cancel_task`: cancel the future
(external), return the agent to its availability pool and drop the
active-task entry. -/
def releaseActive (s : SchedState) (taskId : String) : SchedState :=
  match lookupMap taskId s.activeTasks with
  | none => s
  | some agentId =>
    let s' :=
      match lookupMap agentId s.agents with
      | none => s
      | some ty => { s with avail := s.avail.set ty (s.avail.get ty ++ [agentId]) }
    { s' with activeTasks := delMap taskId s'.activeTasks }

/-- Port of `TaskScheduler.cancel_task`: refuses for unknown ids and for tasks
whose status is COMPLETED or CANCELLED; otherwise releases the agent of
an in-flight execution, sets the status to CANCELLED and recursively
cancels the subtasks.  The Python recursion over the subtask tree is
bounded here by `fuel` (the call stack); `fuel = 0` performs no work. -/
def cancelTask : Nat → SchedState → String → Bool × SchedState
  | 0, s, _ => (false, s)
  | fuel + 1, s, taskId =>
    match lookupMap taskId s.tasks with
    | none => (false, s)
    | some t =>
      if t.status = TaskStatus.completed ∨ t.status = TaskStatus.cancelled then
        (false, s)
      else
        let s := releaseActive s taskId
        let s := { s with tasks := updMap taskId { t with status := TaskStatus.cancelled } s.tasks }
        let s := t.subtaskIds.foldl (fun acc sub => (cancelTask fuel acc sub).2) s
        (true, s)

/-! ## Communication interface (backend/agents/communication.py) -/

/-- Model of `MessageType` from communication.py. -/
inductive MessageType
  | request
  | response
  | notification
  | status
  | error
  | system
  | broadcast
deriving DecidableEq, Repr

/-- Model of `AgentMessage` (fields the delivery logic reads; content is opaque). -/
structure AgentMessage where
  messageId : String
  type : MessageType
  sender : String
  recipients : List String
  subject : String := ""
  inReplyTo : Option String := none
  conversationId : Option String := none
  requiresAcknowledgment : Bool := false
deriving DecidableEq, Repr

/-- Model of `AgentConversation`; `departedAgents` models
`metadata["departed_agents"]` (the departure timestamps are not
modelled). -/
structure Conversation where
  conversationId : String
  participants : List String
  subject : String := ""
  messages : List String := []
  status : String := "active"
  departedAgents : List String := []
deriving DecidableEq, Repr

/-- State owned by `CommunicationInterface`: the agent directory, the
per-agent registered message handlers (ids only: the handler bodies are
external), the message and conversation stores and the
active-conversation set.  `nextId` feeds the fresh-conversation-id
generation standing in for `uuid.uuid4()`. -/
structure CommState where
  agentDirectory : List (String × AgentType) := []
  messageHandlers : List String := []
  messages : List (String × AgentMessage) := []
  conversations : List (String × Conversation) := []
  activeConversations : List String := []
  nextId : Nat := 0
deriving DecidableEq, Repr

/-- Membership in the agent directory (`agent_id in self.agent_directory`). -/
def CommState.registered (s : CommState) (aid : String) : Bool :=
  (lookupMap aid s.agentDirectory).isSome

/-- Port of `CommunicationInterface.leave_conversation` (the spawned
"has left the conversation" system message is a fire-and-forget send that
the claims do not observe; it is not modelled).  The participant is only
logged as departed — it is NOT removed from `participants` — and the
conversation closes exactly when no other participant is still in the
agent directory. -/
def leaveConversation (s : CommState) (conversationId participantId : String) :
    Bool × CommState :=
  match lookupMap conversationId s.conversations with
  | none => (false, s)
  | some conv =>
    if participantId ∉ conv.participants then (false, s)
    else
      let conv := { conv with departedAgents := conv.departedAgents ++ [participantId] }
      let remaining := conv.participants.filter
        (fun p => p ≠ participantId ∧ s.registered p)
      if remaining = [] then
        let conv := { conv with status := "closed" }
        (true, { s with
          conversations := updMap conversationId conv s.conversations
          activeConversations := s.activeConversations.filter (· ≠ conversationId) })
      else
        (true, { s with conversations := updMap conversationId conv s.conversations })

/-- The per-conversation cleanup step of
`CommunicationInterface.unregister_agent`, with `dir'` the directory
after the agent's removal: mark the agent departed and close the
conversation when no remaining participant is registered. -/
def unregisterConvUpdate (dir' : List (String × AgentType)) (aid : String)
    (conv : Conversation) : Conversation :=
  if aid ∈ conv.participants then
    let conv := { conv with departedAgents := conv.departedAgents ++ [aid] }
    let remaining := conv.participants.filter
      (fun p => p ≠ aid ∧ (lookupMap p dir').isSome)
    if remaining = [] then { conv with status := "closed" } else conv
  else conv

/-- Whether the cleanup closes this conversation (used to mirror
`self.active_conversations.discard(conversation_id)`). -/
def unregisterCloses (dir' : List (String × AgentType)) (aid : String)
    (conv : Conversation) : Bool :=
  aid ∈ conv.participants ∧
    conv.participants.filter (fun p => p ≠ aid ∧ (lookupMap p dir').isSome) = []

/-- Port of `CommunicationInterface.unregister_agent`: remove the agent from the
directory and the handler map, then mark it departed in each conversation
it participates in, closing those left with no registered participant
(the broadcast "has left the system" message and the custom event are
fire-and-forget sends, not modelled). -/
def unregisterAgent (s : CommState) (aid : String) : CommState :=
  if ¬ s.registered aid then s
  else
    let dir' := delMap aid s.agentDirectory
    { s with
      agentDirectory := dir'
      messageHandlers := s.messageHandlers.filter (· ≠ aid)
      conversations := s.conversations.map
        (fun kv => (kv.1, unregisterConvUpdate dir' aid kv.2))
      activeConversations := s.activeConversations.filter
        (fun cid =>
          match lookupMap cid s.conversations with
          | some conv => ¬ unregisterCloses dir' aid conv
          | none => true) }

/-- Port of `CommunicationInterface.register_agent` (the registration broadcast
and the custom event are fire-and-forget sends, not modelled). -/
def registerAgent (s : CommState) (aid : String) (ty : AgentType)
    (hasHandler : Bool) : CommState :=
  { s with
    agentDirectory := updMap aid ty s.agentDirectory
    messageHandlers := if hasHandler then s.messageHandlers ++ [aid] else s.messageHandlers }

/-- What `CommunicationInterface.send_message` did, as observed by the
claims: the message id, the recipient set resolved at send time, the
recipients whose registered handler was invoked, and the recipients an
acknowledgment was generated for. -/
structure SendOutcome where
  messageId : String
  resolvedRecipients : List String
  deliveredTo : List String
  ackedFor : List String := []
deriving DecidableEq, Repr

/-- Port of `CommunicationInterface.send_message`.  Returns `none` exactly when
the code returns `None` (unknown sender, or a non-broadcast message with
no valid recipient left after filtering).  For BROADCAST messages the
recipient list is not validated; the recipients are resolved at send
time to every directory entry except the sender.  Delivery invokes the
registered handler of each resolved recipient that has one (handler
exceptions are swallowed in the source and handler bodies are external,
so delivery is recorded as the list of handler invocations).  When
`requires_acknowledgment` is set, a RESPONSE message from "system" to the
sender is sent per resolved recipient still in the directory; those
nested sends store further messages but are themselves never broadcasts
and never acknowledged, so the recursion is one level deep — `fuel`
bounds it. -/
def sendMessage : Nat → CommState → AgentMessage → Option SendOutcome × CommState
  | 0, s, _ => (none, s)
  | fuel + 1, s, msg =>
    if ¬ (s.registered msg.sender ∨ msg.sender = "system") then (none, s)
    else
      let msg :=
        if msg.type ≠ MessageType.broadcast then
          { msg with recipients :=
              msg.recipients.filter (fun r => s.registered r ∨ r = "system") }
        else msg
      if msg.type ≠ MessageType.broadcast ∧ msg.recipients = [] then (none, s)
      else
        let s := { s with messages := updMap msg.messageId msg s.messages }
        let freshConv : String → Conversation := fun cid =>
          { conversationId := cid
            participants := msg.sender :: msg.recipients
            subject := msg.subject
            messages := [msg.messageId] }
        let msgState : AgentMessage × CommState :=
          match msg.conversationId with
          | some cid =>
            match lookupMap cid s.conversations with
            | some conv =>
              let conv := { conv with messages := conv.messages ++ [msg.messageId] }
              (msg, { s with conversations := updMap cid conv s.conversations })
            | none =>
              (msg, { s with
                conversations := updMap cid (freshConv cid) s.conversations
                activeConversations := s.activeConversations ++ [cid] })
          | none =>
            let cid := "conv" ++ toString s.nextId
            ({ msg with conversationId := some cid },
              { s with
                conversations := updMap cid (freshConv cid) s.conversations
                activeConversations := s.activeConversations ++ [cid]
                nextId := s.nextId + 1 })
        let msg := msgState.1
        let s := msgState.2
        let resolved :=
          if msg.type = MessageType.broadcast then
            (s.agentDirectory.map Prod.fst).filter (· ≠ msg.sender)
          else msg.recipients
        let delivered := resolved.filter (· ∈ s.messageHandlers)
        let ackState : List String × CommState :=
          if msg.requiresAcknowledgment then
            resolved.foldl
              (fun (acc : List String × CommState) r =>
                if acc.2.registered r then
                  let ack : AgentMessage :=
                    { messageId := "ack" ++ toString acc.2.nextId ++ "-" ++ msg.messageId
                      type := MessageType.response
                      sender := "system"
                      recipients := [msg.sender]
                      subject := "Acknowledgment for " ++ msg.subject
                      inReplyTo := some msg.messageId
                      conversationId := msg.conversationId }
                  (acc.1 ++ [r], (sendMessage fuel { acc.2 with nextId := acc.2.nextId + 1 } ack).2)
                else acc)
              ([], s)
          else ([], s)
        (some { messageId := msg.messageId
                resolvedRecipients := resolved
                deliveredTo := delivered
                ackedFor := ackState.1 }, ackState.2)

/-! ## Action executor (backend/agents/executor.py) -/

/-- Model of `ActionType` from executor.py (a closed string enum). -/
inductive ActionType
  | apiCall
  | dbOp
  | notification
  | email
  | sms
  | fileOp
  | scheduleTask
  | integration
  | custom
deriving DecidableEq, Repr

/-- The string value of each `ActionType` member. -/
def ActionType.value : ActionType → String
  | .apiCall => "api_call"
  | .dbOp => "db_op"
  | .notification => "notification"
  | .email => "email"
  | .sms => "sms"
  | .fileOp => "file_op"
  | .scheduleTask => "schedule_task"
  | .integration => "integration"
  | .custom => "custom"

/-- Model of `Action` (parameters are opaque to the executor's control
flow). -/
structure Action where
  actionId : String
  type : ActionType
  name : String := ""
  description : String := ""
  timeoutSeconds : Nat := 300
  retryable : Bool := true
  maxRetries : Nat := 3
  dependencies : List String := []
  workflowId : Option String := none
deriving DecidableEq, Repr

/-- Model of `ActionResult` (timestamps are not modelled; `duration_seconds` is
kept because the no-handler branch fixes it to 0). -/
structure ActionResult where
  actionId : String
  success : Bool
  result : Option String := none
  error : Option String := none
  durationSeconds : Nat := 0
  attempts : Nat := 1
deriving DecidableEq, Repr

/-- State owned by `ActionExecutor`: the handler registry (only the set
of registered types matters — the handler bodies are external) and the
stored results.  `register_default_handlers` registers a handler for
every member of the closed `ActionType` enum. -/
def defaultHandlerTypes : List ActionType :=
  [.apiCall, .dbOp, .notification, .email, .sms, .fileOp, .scheduleTask, .integration, .custom]

structure ExecState where
  handlers : List ActionType := defaultHandlerTypes
  actionResults : List (String × ActionResult) := []
deriving DecidableEq, Repr

/-- Outcome of one invocation of an action's handler, as resolved by the
race in `_execute_with_timeout`/`_execute_handler`: the handler returns a
value, the timeout fires, the cancellation event wins, or the handler
raises. -/
inductive HandlerOutcome
  | ok (v : String)
  | timeout
  | cancelled
  | raised (msg : String)
deriving DecidableEq, Repr

def noHandlerMsg (ty : ActionType) : String :=
  "No handler registered for action type: " ++ ty.value

/-- Port of `ActionExecutor.execute_action`.  The environment `h` gives the
outcome of each handler invocation (the second argument counts the retry
depth, standing for the `metadata`-tagged copy `_retry_action` executes).
The source's retry path recurses into `execute_action` with a local
`attempts = 1` at every level, so an always-raising retryable handler
with `max_retries > 1` recurses without bound; `fuel` makes that visible:
`none` means the call has not returned within `fuel` nested attempts.
Wall-clock durations are not modelled (0 everywhere); the no-handler
early return does not touch `action_results`, all other exits store the
result under the action's id from the `finally` block, and a successful
retry rewrites the stored result with `attempts = previous_attempts + 1`
(always 2 in the source, since `attempts` is the local 1). -/
def executeActionFuel (h : Action → Nat → HandlerOutcome) :
    Nat → ExecState → Action → Nat → Option (ActionResult × ExecState)
  | 0, _, _, _ => none
  | fuel + 1, s, a, depth =>
    if a.type ∉ s.handlers then
      some ({ actionId := a.actionId, success := false,
              error := some (noHandlerMsg a.type),
              durationSeconds := 0, attempts := 1 }, s)
    else
      match h a depth with
      | .ok v =>
        let r : ActionResult := { actionId := a.actionId, success := true, result := some v }
        some (r, { s with actionResults := updMap a.actionId r s.actionResults })
      | .timeout =>
        let r : ActionResult :=
          { actionId := a.actionId, success := false,
            error := some ("Action timed out after " ++ toString a.timeoutSeconds ++ " seconds") }
        some (r, { s with actionResults := updMap a.actionId r s.actionResults })
      | .cancelled =>
        let r : ActionResult :=
          { actionId := a.actionId, success := false, error := some "Action was cancelled" }
        some (r, { s with actionResults := updMap a.actionId r s.actionResults })
      | .raised m =>
        if a.retryable ∧ 1 < a.maxRetries then
          match executeActionFuel h fuel s a (depth + 1) with
          | none => none
          | some (r', s') =>
            if r'.success then
              let r : ActionResult :=
                { actionId := a.actionId, success := true, result := r'.result, attempts := 2 }
              some (r, { s' with actionResults := updMap a.actionId r s'.actionResults })
            else
              let r : ActionResult :=
                { actionId := a.actionId, success := false,
                  error := some ("Action failed: " ++ m) }
              some (r, { s' with actionResults := updMap a.actionId r s'.actionResults })
        else
          let r : ActionResult :=
            { actionId := a.actionId, success := false,
              error := some ("Action failed: " ++ m) }
          some (r, { s with actionResults := updMap a.actionId r s.actionResults })

/-- Port of `ActionExecutor.execute_actions`: one result per action id (a
`gather` over `execute_action`; `none` propagates fuel exhaustion of any
single execution, which in the source is that execution never
returning). -/
def executeActionsFuel (h : Action → Nat → HandlerOutcome) (fuel : Nat) (s : ExecState)
    (actions : List Action) : Option (List (String × ActionResult) × ExecState) :=
  actions.foldl
    (fun acc a =>
      match acc with
      | none => none
      | some (rs, s) =>
        match executeActionFuel h fuel s a 0 with
        | none => none
        | some (r, s') => some (updMap a.actionId r rs, s'))
    (some ([], s))

/-- The failure result `execute_with_dependencies` synthesises for
actions stuck behind a circular or missing dependency. -/
def circFail (actionId : String) : ActionResult :=
  { actionId := actionId, success := false, error := some "Circular or missing dependency" }

/-- Builds `pending = {action.action_id: action for action in actions}`: a dict
keyed by id (a later duplicate id overwrites an earlier one). -/
def buildPending (actions : List Action) : List Action :=
  (actions.foldl (fun m a => updMap a.actionId a m) []).map Prod.snd

/-- All dependencies of `a` are in the completed set. -/
def readyAll (completed : List String) (a : Action) : Bool :=
  a.dependencies.all (· ∈ completed)

/-- The `while pending:` loop of
`ActionExecutor.execute_with_dependencies`, with per-action execution
bounded by `fuel` (both the loop and the nested `execute_action` retry
recursion draw on it): compute the ready frontier; if it is empty, stop
with an explicit failure result for every remaining action; otherwise
execute the frontier and add its successful ids to the completed set. -/
def ewdLoopFuel (h : Action → Nat → HandlerOutcome) :
    Nat → ExecState → List Action → List String → List (String × ActionResult) →
    Option (List (String × ActionResult) × ExecState)
  | 0, _, _, _, _ => none
  | fuel + 1, s, pending, completed, results =>
    match pending with
    | [] => some (results, s)
    | _ :: _ =>
      let executable := pending.filter (readyAll completed)
      if executable = [] then
        some (pending.foldl (fun rs a => updMap a.actionId (circFail a.actionId) rs) results, s)
      else
        let pending' := pending.filter (fun a => ! readyAll completed a)
        match executeActionsFuel h fuel s executable with
        | none => none
        | some (batch, s') =>
          let completed' := completed ++ (batch.filter (fun kv => kv.2.success)).map Prod.fst
          ewdLoopFuel h fuel s' pending' completed'
            (batch.foldl (fun rs kv => updMap kv.1 kv.2 rs) results)

/-- Port of `ActionExecutor.execute_with_dependencies`, fuel-bounded. -/
def executeWithDepsFuel (h : Action → Nat → HandlerOutcome) (fuel : Nat) (s : ExecState)
    (actions : List Action) : Option (List (String × ActionResult) × ExecState) :=
  ewdLoopFuel h fuel s (buildPending actions) [] []

/-- The same dependency-frontier loop under the assumption that each
`execute_action` call returns a result; `exec` abstracts such a
terminating execution.  This is the loop the termination claims are
about: each pass removes the non-empty frontier from `pending`, so the
recursion is well-founded on `pending.length`. -/
def ewdLoop (exec : Action → ActionResult) (pending : List Action) (completed : List String)
    (results : List (String × ActionResult)) : List (String × ActionResult) :=
  if hp : pending = [] then results
  else
    let executable := pending.filter (readyAll completed)
    if hex : executable = [] then
      pending.foldl (fun rs a => updMap a.actionId (circFail a.actionId) rs) results
    else
      let pending' := pending.filter (fun a => ! readyAll completed a)
      let batch := executable.map (fun a => (a.actionId, exec a))
      let completed' := completed ++ (batch.filter (fun kv => kv.2.success)).map Prod.fst
      have hlt : pending'.length < pending.length := by
        have h1 : pending.length =
            (pending.filter (readyAll completed)).length +
              (pending.filter (fun a => ! readyAll completed a)).length :=
          List.length_eq_length_filter_add (readyAll completed)
        have h2 : 0 < (pending.filter (readyAll completed)).length := by
          cases hc : pending.filter (readyAll completed) with
          | nil => exact absurd hc hex
          | cons x xs => simp [hc]
        simp only [pending']
        omega
      ewdLoop exec pending' completed'
        (batch.foldl (fun rs kv => updMap kv.1 kv.2 rs) results)
termination_by pending.length
decreasing_by simpa using hlt

/-- Model of `execute_with_dependencies` under terminating per-action execution. -/
def executeWithDependencies (exec : Action → ActionResult) (actions : List Action) :
    List (String × ActionResult) :=
  ewdLoop exec (buildPending actions) [] []

/-- The claim that a call diverges: no amount of fuel makes the embedded
computation return. -/
def ewdDiverges (h : Action → Nat → HandlerOutcome) (s : ExecState)
    (actions : List Action) : Prop :=
  ∀ fuel, executeWithDepsFuel h fuel s actions = none

/-! ## Decision engine response parsing (backend/agents/decision_engine.py)

`DecisionEngine._parse_decision_from_response` extracts the sections of
the reasoning response with five `re` patterns.  The patterns are of the
restricted shape `(?:^|\n)\s*M\s*(...)` where the marker `M` and the
tail's first alternatives all begin with a non-whitespace character, so
Python's backtracking collapses deterministically: a greedy `\s*` in
front of such a token always stops exactly at the end of the maximal
whitespace run, and the leftmost match is found by trying position 0
(the `^` alternative) and then every `\n` position from left to right.
The functions below implement exactly that collapsed semantics over
`List Char`.  Confidence values are represented in `ℚ` (the matched
literals `0.d+`, `1.0`, `1`, `0` idealized as exact rationals; the claim
under verification only involves the default `0.5`). -/

/-- Python `\s` on ASCII text (space, tab, newline, carriage return,
vertical tab, form feed). -/
def pySpace (c : Char) : Bool :=
  c = ' ' ∨ c = '\t' ∨ c = '\n' ∨ c = '\r' ∨ c = '\x0b' ∨ c = '\x0c'

/-- Python `str.strip()`. -/
def stripChars (cs : List Char) : List Char :=
  (((cs.dropWhile pySpace).reverse).dropWhile pySpace).reverse

/-- Whether `pat` is a literal prefix of `cs`. -/
def leadsWith : List Char → List Char → Bool
  | [], _ => true
  | _ :: _, [] => false
  | p :: ps, c :: cs => p = c ∧ leadsWith ps cs

/-- Whether `pat` occurs as a contiguous subsequence of `cs`. -/
def containsSeq (pat : List Char) : List Char → Bool
  | [] => leadsWith pat []
  | c :: rest => leadsWith pat (c :: rest) ∨ containsSeq pat rest

/-- Matcher for `\s*M` at one scan position: the greedy whitespace run followed by
the literal marker; returns the text after the marker. -/
def sectionMatchAt (marker : List Char) (cs : List Char) : Option (List Char) :=
  let cs1 := cs.dropWhile pySpace
  if leadsWith marker cs1 then some (cs1.drop marker.length) else none

/-- Scan for the `\n` alternative of `(?:^|\n)` at each later position,
left to right. -/
def sectionSearchAux (marker : List Char) : List Char → Option (List Char)
  | [] => none
  | c :: rest =>
    if c = '\n' then
      match sectionMatchAt marker rest with
      | some r => some r
      | none => sectionSearchAux marker rest
    else sectionSearchAux marker rest

/-- Search of `re.search` for `(?:^|\n)\s*M`: the `^` alternative at position 0
first, then the `\n` alternative at every position in order; returns the
text following the first marker occurrence so reachable. -/
def sectionSearch (marker : List Char) (cs : List Char) : Option (List Char) :=
  match sectionMatchAt marker cs with
  | some r => some r
  | none => sectionSearchAux marker cs

/-- The terminator `\n\s*\*\*` of the section-body patterns matches at
this position. -/
def sectionBreakHere (cs : List Char) : Bool :=
  match cs.dropWhile pySpace with
  | '*' :: '*' :: _ => true
  | _ => false

/-- The lazy `(.*?)` (DOTALL) bounded by `(?:\n\s*\*\*|$)`: the shortest
prefix ending where the next section marker starts, or the whole rest of
the text. -/
def takeUntilSectionBreak : List Char → List Char
  | [] => []
  | c :: rest =>
    if c = '\n' ∧ sectionBreakHere rest then []
    else c :: takeUntilSectionBreak rest

/-- Extraction of one `**Section:**` body as the source performs it:
find the marker, skip the greedy `\s*`, capture lazily up to the next
section or the end, then `.strip()` the capture. -/
def sectionContent (marker : List Char) (cs : List Char) : Option (List Char) :=
  (sectionSearch marker cs).map fun rest =>
    stripChars (takeUntilSectionBreak (rest.dropWhile pySpace))

def digitsToNat (ds : List Char) : Nat :=
  ds.foldl (fun n c => n * 10 + (c.toNat - '0'.toNat)) 0

/-- The group `(0\.\d+|1\.0|1|0)` of the confidence pattern, alternatives
tried in order, `\d+` greedy, `float(...)` idealized in `ℚ`. -/
def parseConfNum (cs : List Char) : Option ℚ :=
  match cs with
  | '0' :: '.' :: rest =>
    let ds := rest.takeWhile Char.isDigit
    if ds = [] then some 0
    else some ((digitsToNat ds : ℚ) / ((10 : ℚ) ^ ds.length))
  | '1' :: '.' :: '0' :: _ => some 1
  | '1' :: _ => some 1
  | '0' :: _ => some 0
  | _ => none

/-- Clamp `max(0, min(1, confidence))`. -/
def clamp01 (q : ℚ) : ℚ := max 0 (min 1 q)

/-- Matcher for `\s*\*\*Confidence:\*\*\s*(0\.\d+|1\.0|1|0)` at one scan position:
when the marker is present but the number group fails, the whole pattern
fails at this position and the search continues. -/
def confMatchAt (marker : List Char) (cs : List Char) : Option ℚ :=
  let cs1 := cs.dropWhile pySpace
  if leadsWith marker cs1 then
    parseConfNum ((cs1.drop marker.length).dropWhile pySpace)
  else none

def confSearchAux (marker : List Char) : List Char → Option ℚ
  | [] => none
  | c :: rest =>
    if c = '\n' then
      match confMatchAt marker rest with
      | some v => some v
      | none => confSearchAux marker rest
    else confSearchAux marker rest

/-- Search of `re.search` for the confidence pattern. -/
def confSearch (marker : List Char) (cs : List Char) : Option ℚ :=
  match confMatchAt marker cs with
  | some v => some v
  | none => confSearchAux marker cs

/-- Split at the first `'\n'`: the characters before it and, when a
newline was found, the remainder after it (the `(?:\n|$)` terminator of
the item patterns, the newline being consumed by the match). -/
def splitAtNewline : List Char → List Char × Option (List Char)
  | [] => ([], none)
  | c :: rest =>
    if c = '\n' then ([], some rest)
    else
      let r := splitAtNewline rest
      (c :: r.1, r.2)

/-- Matcher for `\s*-\s*(.*?)(?:\n|$)` at one scan position (for the Alternatives
items). -/
def dashMatchAt (cs : List Char) : Option (List Char × List Char) :=
  match cs.dropWhile pySpace with
  | '-' :: rest =>
    let r := splitAtNewline (rest.dropWhile pySpace)
    match r.2 with
    | some rem => some (r.1, rem)
    | none => some (r.1, [])
  | _ => none

/-- Matcher for `\s*\d+\.\s*(.*?)(?:\n|$)` at one scan position (for the Actions
items). -/
def numMatchAt (cs : List Char) : Option (List Char × List Char) :=
  let cs1 := cs.dropWhile pySpace
  let ds := cs1.takeWhile Char.isDigit
  if ds = [] then none
  else
    match cs1.drop ds.length with
    | '.' :: rest =>
      let r := splitAtNewline (rest.dropWhile pySpace)
      match r.2 with
      | some rem => some (r.1, rem)
      | none => some (r.1, [])
    | _ => none

/-- The scan of `re.findall` for the item patterns: each match consumes
its capture together with the terminating newline, and the next match is
looked for from there on (the `^` alternative can only fire at absolute
position 0, handled by the top-level function).  The fuel argument is
instantiated with the length of the scanned text, which bounds the scan
exactly since every step consumes at least one character. -/
def findItemsAux (matchAt : List Char → Option (List Char × List Char)) :
    Nat → List Char → List (List Char)
  | 0, _ => []
  | _, [] => []
  | n + 1, c :: rest =>
    if c = '\n' then
      match matchAt rest with
      | some (cap, rem) => cap :: findItemsAux matchAt n rem
      | none => findItemsAux matchAt n rest
    else findItemsAux matchAt n rest

def findItems (matchAt : List Char → Option (List Char × List Char))
    (cs : List Char) : List (List Char) :=
  match matchAt cs with
  | some (cap, rem) => cap :: findItemsAux matchAt rem.length rem
  | none => findItemsAux matchAt cs.length cs

/-- Filter `[item.strip() for item in items if item.strip()]`. -/
def keptItems (items : List (List Char)) : List String :=
  ((items.map stripChars).filter (· ≠ [])).map fun cs => String.mk cs

def decisionMarker : List Char := "**Decision:**".data
def confidenceMarker : List Char := "**Confidence:**".data
def reasoningMarker : List Char := "**Reasoning:**".data
def alternativesMarker : List Char := "**Alternatives Considered:**".data
def actionsMarker : List Char := "**Actions:**".data

/-- Model of `DecisionResult` (alternatives/actions are kept as their text
items). -/
structure DecisionResult where
  decisionId : String
  workflowId : String
  taskId : Option String := none
  decision : String
  confidence : ℚ
  reasoning : String
  alternatives : List String
  actions : List String
deriving DecidableEq, Repr

/-- Port of `DecisionEngine._parse_decision_from_response`: tolerant extraction
with defaults `decision = ""`, `confidence = 0.5`, `reasoning = ""`,
`alternatives = []`, `actions = []` for absent sections; never fails. -/
def parseDecisionFromResponse (responseText : String) (workflowId : String)
    (taskId : Option String) (now : Nat) : DecisionResult :=
  let cs := responseText.data
  { decisionId := "decision_" ++ toString now ++ "_" ++ workflowId
    workflowId := workflowId
    taskId := taskId
    decision :=
      match sectionContent decisionMarker cs with
      | some c => String.mk c
      | none => ""
    confidence :=
      match confSearch confidenceMarker cs with
      | some v => clamp01 v
      | none => (1 : ℚ) / 2
    reasoning :=
      match sectionContent reasoningMarker cs with
      | some c => String.mk c
      | none => ""
    alternatives :=
      match sectionContent alternativesMarker cs with
      | some c => keptItems (findItems dashMatchAt c)
      | none => []
    actions :=
      match sectionContent actionsMarker cs with
      | some c => keptItems (findItems numMatchAt c)
      | none => [] }

/-! ## Amended-claim reference definitions -/

/-- The tier `_find_available_agent` prefers for a task without a required
agent type, read off the source's priority routing: CRITICAL/HIGH go to
executive agents, MEDIUM to manager agents, LOW to task agents. -/
def tierPreference : TaskPriority → AgentType
  | .critical => .executive
  | .high => .executive
  | .medium => .manager
  | .low => .task

/-- Written from the amended claim: selection first tries the
priority-preferred tier, then falls back through the fixed tier order
executive → manager → task. -/
def prioritizedTierSelection (p : TaskPriority) (av : Avail) : Option (String × Avail) :=
  match takeTier av (tierPreference p) with
  | some r => some r
  | none =>
    match takeTier av .executive with
    | some r => some r
    | none =>
      match takeTier av .manager with
      | some r => some r
      | none => takeTier av .task

/-! ## Concrete fixtures used by the theorems -/

/-- Three tasks whose dependency ids form the cycle X → Y → Z → X. -/
def cyclicTasks : List (String × Task) :=
  [("X", { taskId := "X", title := "X", description := "X", dependencies := ["Y"] }),
   ("Y", { taskId := "Y", title := "Y", description := "Y", dependencies := ["Z"] }),
   ("Z", { taskId := "Z", title := "Z", description := "Z", dependencies := ["X"] })]

/-- The scheduler right after the three cyclic tasks were submitted, with
one registered and available agent (so the loop reaches the dependency
check rather than idling). -/
def cyclicState : SchedState :=
  { taskQueue := [(2, 0, "X"), (2, 1, "Y"), (2, 2, "Z")]
    tasks := cyclicTasks
    agents := [("agent1", AgentType.executive)]
    avail := { executive := ["agent1"] } }

/-- Shape preserved by every scheduler pass on the cyclic fixture: the
task table and the agent pool never change, and the queue keeps at least
one entry, all entries naming one of the three stuck tasks. -/
def cyclicInvariant (s : SchedState) : Prop :=
  s.tasks = cyclicTasks ∧ s.avail = { executive := ["agent1"] } ∧
    s.taskQueue ≠ [] ∧ ∀ e ∈ s.taskQueue, e.2.2 = "X" ∨ e.2.2 = "Y" ∨ e.2.2 = "Z"

instance (s : SchedState) : Decidable (cyclicInvariant s) := by
  unfold cyclicInvariant; infer_instance

/-- Run the scheduler loop once per entry of `times`, each pass observing
that clock value. -/
def runScheduler (s : SchedState) (times : List Nat) : SchedState :=
  times.foldl (fun acc t => (schedulerStep acc t).2) s

/-- An environment whose handler invocation raises on every attempt. -/
def alwaysRaise : Action → Nat → HandlerOutcome := fun _ _ => .raised "boom"

/-- A retryable action with the default `max_retries = 3` and a
registered handler type and no dependencies. -/
def retryableAction : Action :=
  { actionId := "a1", type := .custom, name := "a1" }

/-- Task C depending on task B, with B submitted but not COMPLETED. -/
def depWitnessTasks : List (String × Task) :=
  [("B", { taskId := "B" }), ("C", { taskId := "C", dependencies := ["B"] })]

def depWitnessState : SchedState :=
  { taskQueue := [(2, 0, "C")]
    tasks := depWitnessTasks
    agents := [("agent1", AgentType.executive)]
    avail := { executive := ["agent1"] } }

/-- Two registered agents P1, P2 in one active conversation "c". -/
def pairConvState : CommState :=
  { agentDirectory := [("P1", AgentType.task), ("P2", AgentType.task)]
    conversations := [("c", { conversationId := "c", participants := ["P1", "P2"] })]
    activeConversations := ["c"] }

/-- State `pairConvState` after P1 and then P2 call `leave_conversation`. -/
def pairConvBothLeft : CommState :=
  (leaveConversation (leaveConversation pairConvState "c" "P1").2 "c" "P2").2

/-- Registered agents X, A, B; only X and A registered a message
handler. -/
def broadcastState : CommState :=
  { agentDirectory := [("X", AgentType.task), ("A", AgentType.task), ("B", AgentType.task)]
    messageHandlers := ["X", "A"] }

/-- A BROADCAST message from X. -/
def broadcastMsg : AgentMessage :=
  { messageId := "m1", type := .broadcast, sender := "X", recipients := [] }

/-- A terminating per-action execution (every handler succeeds). -/
def simpleExec : Action → ActionResult :=
  fun a => { actionId := a.actionId, success := true }

/-- Two actions whose dependency ids form the cycle a ↔ b, next to an
independent action c and an action d with a permanently-missing
dependency. -/
def ewdCycleActions : List Action :=
  [{ actionId := "a", type := .custom, dependencies := ["b"] },
   { actionId := "b", type := .custom, dependencies := ["a"] },
   { actionId := "c", type := .custom },
   { actionId := "d", type := .custom, dependencies := ["zz"] }]

/-- A reasoning response with Decision, Reasoning and Actions sections
but no Confidence section. -/
def sampleResponse : String :=
  "**Decision:** Ship it\n\n**Reasoning:** Looks correct and safe\n\n**Actions:**\n1. Deploy"

/-! ## Helper lemmas on the dict and heap models -/

theorem lookupMap_updMap_self {α : Type} (k : String) (v : α) (m : List (String × α)) :
    lookupMap k (updMap k v m) = some v := by
  induction m with
  | nil => simp [updMap, lookupMap]
  | cons kv rest ih =>
    obtain ⟨k', v'⟩ := kv
    by_cases h : k' = k
    · simp [updMap, lookupMap, h]
    · simp [updMap, lookupMap, h, ih]

theorem lookupMap_updMap_ne {α : Type} {k k' : String} (v : α) (m : List (String × α))
    (h : k' ≠ k) : lookupMap k (updMap k' v m) = lookupMap k m := by
  have h' : k ≠ k' := Ne.symm h
  induction m with
  | nil => simp [updMap, lookupMap, h, h']
  | cons kv rest ih =>
    obtain ⟨k'', v''⟩ := kv
    by_cases h2 : k'' = k'
    · simp [updMap, lookupMap, h2, h, h']
    · by_cases h3 : k'' = k <;> simp [updMap, lookupMap, h2, h3, h', ih]

theorem lookupMap_updMap_isSome {α : Type} (k k' : String) (v : α) (m : List (String × α)) :
    (lookupMap k (updMap k' v m)).isSome = true ↔
      k = k' ∨ (lookupMap k m).isSome = true := by
  by_cases h : k' = k
  · subst h
    simp [lookupMap_updMap_self]
  · rw [lookupMap_updMap_ne v m h]
    simp [fun hh => h (Eq.symm hh)]
    intro he
    exact absurd he.symm h

theorem lookupMap_delMap_ne {α : Type} {k k' : String} (m : List (String × α))
    (h : k' ≠ k) : lookupMap k (delMap k' m) = lookupMap k m := by
  have h' : k ≠ k' := Ne.symm h
  induction m with
  | nil => simp [delMap]
  | cons kv rest ih =>
    obtain ⟨k'', v''⟩ := kv
    by_cases h2 : k'' = k'
    · subst h2
      simp [delMap, lookupMap, h, h']
    · by_cases h3 : k'' = k <;> simp [delMap, lookupMap, h2, h3, h', ih]

theorem lookupMap_eq_none_iff {α : Type} (k : String) (m : List (String × α)) :
    lookupMap k m = none ↔ k ∉ m.map Prod.fst := by
  induction m with
  | nil => simp [lookupMap]
  | cons kv rest ih =>
    obtain ⟨k', v'⟩ := kv
    by_cases h : k' = k
    · simp [lookupMap, h]
    · have h' : k ≠ k' := Ne.symm h
      simp only [lookupMap, if_neg h, List.map_cons, List.mem_cons]
      rw [ih]
      constructor
      · intro hn hc
        rcases hc with hc | hc
        · exact h' hc
        · exact hn hc
      · intro hn hc
        exact hn (Or.inr hc)

theorem lookupMap_delMap_self {α : Type} (k : String) (m : List (String × α))
    (hnd : (m.map Prod.fst).Nodup) : lookupMap k (delMap k m) = none := by
  induction m with
  | nil => simp [delMap, lookupMap]
  | cons kv rest ih =>
    obtain ⟨k', v'⟩ := kv
    simp only [List.map_cons, List.nodup_cons] at hnd
    by_cases h : k' = k
    · subst h
      simp only [delMap, if_pos rfl]
      exact (lookupMap_eq_none_iff k' rest).2 hnd.1
    · simp [delMap, lookupMap, h, ih hnd.2]

theorem lookupMap_mapVal {α β : Type} (k : String) (f : α → β) (m : List (String × α)) :
    lookupMap k (m.map (fun kv => (kv.1, f kv.2))) = (lookupMap k m).map f := by
  induction m with
  | nil => simp [lookupMap]
  | cons kv rest ih =>
    obtain ⟨k', v'⟩ := kv
    by_cases h : k' = k <;> simp [lookupMap, h, ih]

theorem foldMin_mem (e : QEntry) (rest : List QEntry) : foldMin e rest ∈ e :: rest := by
  unfold foldMin
  induction rest generalizing e with
  | nil => simp
  | cons x xs ih =>
    simp only [List.foldl_cons]
    have hmem := ih (if entryLE e x then e else x)
    rcases List.mem_cons.1 hmem with h | h
    · rw [h]
      by_cases hc : entryLE e x
      · simp [hc]
      · simp [hc]
    · exact List.mem_cons_of_mem _ (List.mem_cons_of_mem _ h)

theorem mem_eraseFirst {x y : QEntry} : ∀ {l : List QEntry}, y ∈ eraseFirst x l → y ∈ l := by
  intro l
  induction l with
  | nil => simp [eraseFirst]
  | cons z zs ih =>
    by_cases h : z = x
    · simp [eraseFirst, h]
      intro hy
      simp [hy]
    · simp only [eraseFirst, if_neg h, List.mem_cons]
      rintro (hy | hy)
      · exact Or.inl hy
      · exact Or.inr (ih hy)

/-! ## Scheduler lemmas -/

theorem depsMet_spec {tasks : List (String × Task)} {t : Task}
    (h : depsMet tasks t = true) :
    ∀ dep ∈ t.dependencies, ∃ d, lookupMap dep tasks = some d ∧
      d.status = TaskStatus.completed := by
  intro dep hdep
  have hh := (List.all_eq_true.1 h) dep hdep
  revert hh
  cases hl : lookupMap dep tasks with
  | none => simp
  | some d =>
    intro hh
    exact ⟨d, rfl, by simpa using hh⟩

/-- Inversion of the tail of the loop body: an `assigned` outcome names
the peeked task and requires its dependency check to have succeeded. -/
theorem schedulerStepReady_assigned_inv {s : SchedState} {now : Nat} {m : QEntry}
    {t : Task} {tid aid : String}
    (h : (schedulerStep.schedulerStepReady s now m t).1 = StepOutcome.assigned tid aid) :
    m.2.2 = tid ∧ depsMet s.tasks t = true := by
  unfold schedulerStep.schedulerStepReady at h
  split at h
  · simp at h
  next hdeps =>
    cases hfa : findAvailableAgent t s.avail with
    | none => rw [hfa] at h; simp at h
    | some pair =>
      rw [hfa] at h
      simp only [StepOutcome.assigned.injEq] at h
      exact ⟨h.1, by simpa using hdeps⟩

/-- Inversion of the scheduler pass: an `assigned` outcome can only come
from the final branch, where the peeked task is PENDING and its
dependency check succeeded against the current task table. -/
theorem schedulerStep_assigned_inv {s : SchedState} {now : Nat} {tid aid : String}
    (h : (schedulerStep s now).1 = StepOutcome.assigned tid aid) :
    ∃ t, lookupMap tid s.tasks = some t ∧ t.status = TaskStatus.pending ∧
      depsMet s.tasks t = true := by
  unfold schedulerStep at h
  cases hq : s.taskQueue with
  | nil => rw [hq] at h; simp at h
  | cons e rest =>
    rw [hq] at h
    dsimp only at h
    split at h
    · simp at h
    · split at h
      next hl => simp at h
      next t hl =>
        split at h
        · simp at h
        next hpend =>
          have hpend' : t.status = TaskStatus.pending := by simpa using hpend
          split at h
          next when_ hsf =>
            split at h
            · simp at h
            · obtain ⟨h1, h2⟩ := schedulerStepReady_assigned_inv h
              exact ⟨t, h1 ▸ hl, hpend', h2⟩
          next hsf =>
            obtain ⟨h1, h2⟩ := schedulerStepReady_assigned_inv h
            exact ⟨t, h1 ▸ hl, hpend', h2⟩

/-- Every task named by the cyclic fixture's table is PENDING, not
scheduled for the future, and fails the dependency check. -/
theorem cyclicLookup (id : String) (h : id = "X" ∨ id = "Y" ∨ id = "Z") :
    ∃ t : Task, lookupMap id cyclicTasks = some t ∧ t.status = TaskStatus.pending ∧
      t.scheduledFor = none ∧ depsMet cyclicTasks t = false := by
  rcases h with h | h | h <;> subst h
  · exact ⟨{ taskId := "X", title := "X", description := "X", dependencies := ["Y"] },
      by decide, rfl, rfl, by decide⟩
  · exact ⟨{ taskId := "Y", title := "Y", description := "Y", dependencies := ["Z"] },
      by decide, rfl, rfl, by decide⟩
  · exact ⟨{ taskId := "Z", title := "Z", description := "Z", dependencies := ["X"] },
      by decide, rfl, rfl, by decide⟩

/-- One scheduler pass on a state of the cyclic fixture's shape only
re-enqueues the peeked stuck task (with the five-unit delay), leaving the
task table — and so every status — untouched. -/
theorem cyclicInvariant_step {s : SchedState} (hinv : cyclicInvariant s) (now : Nat) :
    cyclicInvariant (schedulerStep s now).2 := by
  obtain ⟨htasks, hav, hq, hmem⟩ := hinv
  cases hqe : s.taskQueue with
  | nil => exact absurd hqe hq
  | cons e rest =>
    have hm : foldMin e rest ∈ s.taskQueue := by
      rw [hqe]; exact foldMin_mem e rest
    have hid := hmem _ hm
    obtain ⟨t, hlook, hstat, hsf, hdeps⟩ := cyclicLookup (foldMin e rest).2.2 hid
    unfold schedulerStep
    rw [hqe]
    dsimp only
    rw [if_neg (by rw [hav]; decide)]
    rw [htasks, hlook]
    dsimp only
    rw [if_neg (by simp [hstat])]
    rw [hsf]
    unfold schedulerStep.schedulerStepReady
    rw [htasks, hdeps]
    dsimp only
    rw [if_pos (by decide)]
    dsimp only
    refine ⟨rfl, hav, by simp, ?_⟩
    intro e' he'
    rcases List.mem_cons.1 he' with he' | he'
    · rw [he']
      exact hid
    · exact hmem e' (mem_eraseFirst he')

theorem runScheduler_cyclicInvariant (times : List Nat) :
    ∀ s, cyclicInvariant s → cyclicInvariant (runScheduler s times) := by
  induction times with
  | nil => intro s h; exact h
  | cons t ts ih =>
    intro s h
    exact ih _ (cyclicInvariant_step h t)

/-- C1: the scheduler has no cycle detection.  On the fixture whose three
submitted tasks form the dependency cycle X → Y → Z → X (with an agent
available), any number of scheduler passes, at any sequence of clock
values, leaves all three tasks PENDING — none is ever marked FAILED — and
the queue never drains: each pass re-enqueues the stuck task with a
five-unit delay, indefinitely. -/
theorem cyclic_dependencies_never_marked_failed (times : List Nat) :
    (lookupMap "X" (runScheduler cyclicState times).tasks).map Task.status =
        some TaskStatus.pending ∧
      (lookupMap "Y" (runScheduler cyclicState times).tasks).map Task.status =
        some TaskStatus.pending ∧
      (lookupMap "Z" (runScheduler cyclicState times).tasks).map Task.status =
        some TaskStatus.pending ∧
      (runScheduler cyclicState times).taskQueue ≠ [] := by
  have hinv := runScheduler_cyclicInvariant times cyclicState (by decide)
  obtain ⟨htasks, -, hq, -⟩ := hinv
  rw [htasks]
  exact ⟨by decide, by decide, by decide, hq⟩

/-- C2: the scheduler never assigns a task C that lists a dependency id B
while B is not COMPLETED in the task table — including when B is unknown
to the table. -/
theorem task_with_unmet_dependency_never_assigned
    (s : SchedState) (now : Nat) (cid bid aid : String) (c : Task)
    (hc : lookupMap cid s.tasks = some c) (hb : bid ∈ c.dependencies)
    (hnot : ¬ ∃ b, lookupMap bid s.tasks = some b ∧ b.status = TaskStatus.completed) :
    (schedulerStep s now).1 ≠ StepOutcome.assigned cid aid := by
  intro h
  obtain ⟨t, hl, hp, hd⟩ := schedulerStep_assigned_inv h
  rw [hc] at hl
  obtain rfl : c = t := Option.some.inj hl
  exact hnot (depsMet_spec hd bid hb)

theorem task_with_unmet_dependency_never_assigned_witness :
    (schedulerStep depWitnessState 0).1 ≠ StepOutcome.assigned "C" "agent1" :=
  task_with_unmet_dependency_never_assigned depWitnessState 0 "C" "B" "agent1"
    { taskId := "C", dependencies := ["B"] } (by decide) (by decide)
    (by
      rintro ⟨b, hb1, hb2⟩
      have hl : lookupMap "B" depWitnessState.tasks = some { taskId := "B" } := by decide
      rw [hl] at hb1
      rw [← Option.some.inj hb1] at hb2
      exact absurd hb2 (by decide))

/-- Unfolding of `simulateAlwaysFail` while retries remain: the failing
attempt re-enqueues the task PENDING with `retry_count` incremented and
backoff `2 ^ retry_count` (computed after the increment). -/
theorem simulateAlwaysFail_retryStep (t : Task) (now : Nat)
    (h : t.retryCount < t.maxRetries) :
    simulateAlwaysFail t now =
      ((simulateAlwaysFail
          { t with status := TaskStatus.pending, assignedAgentId := some "agent",
                   retryCount := t.retryCount + 1,
                   scheduledFor := some (now + 2 ^ (t.retryCount + 1)) }
          (now + 2 ^ (t.retryCount + 1))).1 + 1,
        2 ^ (t.retryCount + 1) ::
          (simulateAlwaysFail
            { t with status := TaskStatus.pending, assignedAgentId := some "agent",
                     retryCount := t.retryCount + 1,
                     scheduledFor := some (now + 2 ^ (t.retryCount + 1)) }
            (now + 2 ^ (t.retryCount + 1))).2.1,
        (simulateAlwaysFail
          { t with status := TaskStatus.pending, assignedAgentId := some "agent",
                   retryCount := t.retryCount + 1,
                   scheduledFor := some (now + 2 ^ (t.retryCount + 1)) }
          (now + 2 ^ (t.retryCount + 1))).2.2) := by
  rw [simulateAlwaysFail.eq_def]
  simp only [processTask]
  rw [if_pos h]

/-- Unfolding of `simulateAlwaysFail` once retries are exhausted: the
task stays FAILED after this single attempt. -/
theorem simulateAlwaysFail_stop (t : Task) (now : Nat)
    (h : ¬ t.retryCount < t.maxRetries) :
    simulateAlwaysFail t now =
      (1, [], { t with status := TaskStatus.failed, assignedAgentId := some "agent" }) := by
  rw [simulateAlwaysFail.eq_def]
  simp only [processTask]
  rw [if_neg h]

/-- C3: a task with `retry_count = 0` and `max_retries = 3` whose every
execution raises ends FAILED after exactly 4 attempts, with backoff
delays `2 ^ retry_count` = 2, 4, 8 — strictly increasing. -/
theorem retry_exhaustion_four_attempts_backoff (t : Task) (now : Nat)
    (h0 : t.retryCount = 0) (h3 : t.maxRetries = 3) :
    (simulateAlwaysFail t now).1 = 4 ∧
      (simulateAlwaysFail t now).2.1 = [2, 4, 8] ∧
      List.Chain' (· < ·) (simulateAlwaysFail t now).2.1 ∧
      (simulateAlwaysFail t now).2.2.status = TaskStatus.failed := by
  rw [simulateAlwaysFail_retryStep t now (by omega)]
  rw [simulateAlwaysFail_retryStep _ _ (by simp; omega)]
  rw [simulateAlwaysFail_retryStep _ _ (by simp; omega)]
  rw [simulateAlwaysFail_stop _ _ (by simp; omega)]
  refine ⟨rfl, ?_, ?_, rfl⟩
  · simp [h0]
  · simp [h0]

theorem retry_exhaustion_four_attempts_backoff_witness :
    (simulateAlwaysFail { taskId := "t" } 0).1 = 4 ∧
      (simulateAlwaysFail { taskId := "t" } 0).2.1 = [2, 4, 8] ∧
      List.Chain' (· < ·) (simulateAlwaysFail { taskId := "t" } 0).2.1 ∧
      (simulateAlwaysFail { taskId := "t" } 0).2.2.status = TaskStatus.failed :=
  retry_exhaustion_four_attempts_backoff { taskId := "t" } 0 rfl rfl

/-- C4 counterexample: `cancel_task` only refuses COMPLETED and CANCELLED
tasks, so a task already in the terminal status FAILED is cancelled —
`True` is returned and its status moves FAILED → CANCELLED, leaving the
terminal status. -/
theorem cancel_moves_failed_task_to_cancelled :
    (cancelTask 1 { tasks := [("t1", { taskId := "t1", status := TaskStatus.failed })] }
        "t1").1 = true ∧
      (lookupMap "t1"
          (cancelTask 1 { tasks := [("t1", { taskId := "t1", status := TaskStatus.failed })] }
            "t1").2.tasks).map Task.status = some TaskStatus.cancelled := by
  decide

theorem releaseActive_tasks (s : SchedState) (tid : String) :
    (releaseActive s tid).tasks = s.tasks := by
  unfold releaseActive
  split
  · rfl
  · split <;> rfl

/-- C4 amended: `cancel_task` never moves a task out of COMPLETED or
CANCELLED — those two terminal statuses are preserved for every task in
the table, through the subtask recursion included.  (FAILED is not
protected: see the counterexample.) -/
theorem cancel_preserves_completed_and_cancelled (fuel : Nat) (s : SchedState)
    (id tid : String) (t : Task) (ht : lookupMap tid s.tasks = some t)
    (hterm : t.status = TaskStatus.completed ∨ t.status = TaskStatus.cancelled) :
    lookupMap tid (cancelTask fuel s id).2.tasks = some t := by
  induction fuel generalizing s id with
  | zero => simpa [cancelTask] using ht
  | succ n ih =>
    unfold cancelTask
    cases hl : lookupMap id s.tasks with
    | none => simpa using ht
    | some u =>
      dsimp only
      split
      · simpa using ht
      next hu =>
        have hfold : ∀ (l : List String) (s' : SchedState),
            lookupMap tid s'.tasks = some t →
            lookupMap tid (l.foldl (fun acc sub => (cancelTask n acc sub).2) s').tasks =
              some t := by
          intro l
          induction l with
          | nil => intro s' h'; exact h'
          | cons x xs ihl => intro s' h'; exact ihl _ (ih _ _ h')
        dsimp only
        apply hfold
        by_cases hid : id = tid
        · subst hid
          rw [hl] at ht
          cases Option.some.inj ht
          exact absurd hterm hu
        · rw [releaseActive_tasks]
          rw [lookupMap_updMap_ne _ _ hid]
          exact ht

theorem cancel_preserves_completed_and_cancelled_witness :
    lookupMap "done"
        (cancelTask 2
          { tasks := [("done", { taskId := "done", status := TaskStatus.completed }),
                      ("t2", { taskId := "t2" })] }
          "t2").2.tasks =
      some { taskId := "done", status := TaskStatus.completed } :=
  cancel_preserves_completed_and_cancelled 2
    { tasks := [("done", { taskId := "done", status := TaskStatus.completed }),
                ("t2", { taskId := "t2" })] }
    "t2" "done" { taskId := "done", status := TaskStatus.completed }
    (by decide) (Or.inl rfl)

/-- C5 counterexample: with no required tier, a MEDIUM-priority task is
routed to the manager pool first — the available executive agent is
passed over, so selection is not the pure executive → manager → task
fallback the claim states. -/
theorem medium_priority_prefers_manager_over_executive :
    findAvailableAgent { taskId := "t", priority := TaskPriority.medium }
        { executive := ["e1"], manager := ["m1"] } =
      some ("m1", { executive := ["e1"], manager := [], task := [] }) ∧
      ({ executive := ["e1"], manager := ["m1"] } : Avail).executive ≠ [] ∧
      "m1" ∉ ({ executive := ["e1"], manager := ["m1"] } : Avail).executive := by
  decide

/-- C5 amended: for tasks without a required tier, selection first tries
the priority-preferred tier (CRITICAL/HIGH → executive, MEDIUM → manager,
LOW → task) and only then falls back through the fixed tier order
executive → manager → task. -/
theorem agent_selection_priority_preferred_then_tier_order (t : Task) (av : Avail)
    (h : t.requiredAgentType = none) :
    findAvailableAgent t av = prioritizedTierSelection t.priority av := by
  unfold findAvailableAgent prioritizedTierSelection tierPreference
  rw [h]
  cases t.priority <;> rfl

theorem agent_selection_priority_preferred_then_tier_order_witness :
    findAvailableAgent { taskId := "w5", priority := TaskPriority.high }
        { manager := ["m"] } =
      prioritizedTierSelection TaskPriority.high { manager := ["m"] } :=
  agent_selection_priority_preferred_then_tier_order
    { taskId := "w5", priority := TaskPriority.high } { manager := ["m"] } rfl

/-! ## Communication-layer lemmas -/

theorem unregisterAgent_directory {s : CommState} {aid : String}
    (h : s.registered aid = true) :
    (unregisterAgent s aid).agentDirectory = delMap aid s.agentDirectory := by
  unfold unregisterAgent
  rw [if_neg (by simp [h])]

theorem unregisterAgent_conversations {s : CommState} {aid : String}
    (h : s.registered aid = true) :
    (unregisterAgent s aid).conversations =
      s.conversations.map
        (fun kv => (kv.1, unregisterConvUpdate (delMap aid s.agentDirectory) aid kv.2)) := by
  unfold unregisterAgent
  rw [if_neg (by simp [h])]

theorem unregisterAgent_active {s : CommState} {aid : String}
    (h : s.registered aid = true) :
    (unregisterAgent s aid).activeConversations =
      s.activeConversations.filter
        (fun cid =>
          match lookupMap cid s.conversations with
          | some conv => ¬ unregisterCloses (delMap aid s.agentDirectory) aid conv
          | none => true) := by
  unfold unregisterAgent
  rw [if_neg (by simp [h])]

/-- C6 counterexample: both participants of conversation "c" leave via
`leave_conversation` while staying registered, both calls succeed, yet
the conversation's status is still "active" and it is still in the
active-conversations set — `leave_conversation` never removes a
participant from the participant list, and the closing check counts
participants still present in the agent directory. -/
theorem conversation_stays_active_after_both_participants_leave :
    (leaveConversation pairConvState "c" "P1").1 = true ∧
      (leaveConversation (leaveConversation pairConvState "c" "P1").2 "c" "P2").1 = true ∧
      (lookupMap "c" pairConvBothLeft.conversations).map Conversation.status =
        some "active" ∧
      "c" ∈ pairConvBothLeft.activeConversations := by
  decide

/-- C6 amended: the conversation closes once no registered agent remains
among its participants; for a two-participant conversation this holds
after both participants are unregistered — `unregister_agent` removes the
agent from the directory, marks it departed, sets the status to "closed"
when no registered participant remains, and drops the conversation from
the active set. -/
theorem conversation_closes_after_both_participants_unregistered
    (s : CommState) (cid p1 p2 : String) (conv : Conversation)
    (hc : lookupMap cid s.conversations = some conv)
    (hp : conv.participants = [p1, p2]) (hne : p1 ≠ p2)
    (h1 : s.registered p1 = true) (h2 : s.registered p2 = true)
    (hnd : (s.agentDirectory.map Prod.fst).Nodup) :
    (lookupMap cid (unregisterAgent (unregisterAgent s p1) p2).conversations).map
        Conversation.status = some "closed" ∧
      cid ∉ (unregisterAgent (unregisterAgent s p1) p2).activeConversations := by
  have hp2ne : p2 ≠ p1 := Ne.symm hne
  set dir1 := delMap p1 s.agentDirectory with hdir1
  -- the conversation after P1's unregistration: P2 still registered,
  -- so it only gains a departure record
  have hrem1 : conv.participants.filter
      (fun p => p ≠ p1 ∧ (lookupMap p dir1).isSome) = [p2] := by
    rw [hp]
    have hl2 : lookupMap p2 dir1 = lookupMap p2 s.agentDirectory :=
      lookupMap_delMap_ne _ hne
    simp only [List.filter_cons, List.filter_nil]
    rw [if_neg (by simp), if_pos (by simp [hp2ne, hl2]; simpa [CommState.registered] using h2)]
  have hconv1 : unregisterConvUpdate dir1 p1 conv =
      { conv with departedAgents := conv.departedAgents ++ [p1] } := by
    unfold unregisterConvUpdate
    rw [if_pos (by rw [hp]; simp)]
    simp only [hrem1]
    rfl
  have hlook1 : lookupMap cid (unregisterAgent s p1).conversations =
      some { conv with departedAgents := conv.departedAgents ++ [p1] } := by
    rw [unregisterAgent_conversations h1, lookupMap_mapVal, hc]
    simp [hconv1]
  have hreg2 : (unregisterAgent s p1).registered p2 = true := by
    unfold CommState.registered
    rw [unregisterAgent_directory h1, lookupMap_delMap_ne _ hne]
    exact h2
  set conv1 : Conversation := { conv with departedAgents := conv.departedAgents ++ [p1] }
    with hconv1def
  set dir2 := delMap p2 (unregisterAgent s p1).agentDirectory with hdir2
  have hrem2 : conv1.participants.filter
      (fun p => p ≠ p2 ∧ (lookupMap p dir2).isSome) = [] := by
    have hpp : conv1.participants = [p1, p2] := hp
    rw [hpp]
    have hl1 : lookupMap p1 dir2 = none := by
      rw [hdir2, unregisterAgent_directory h1, lookupMap_delMap_ne _ hp2ne]
      exact lookupMap_delMap_self p1 s.agentDirectory hnd
    simp only [List.filter_cons, List.filter_nil]
    rw [if_neg (by simp [hl1]), if_neg (by simp)]
  have hcloses : unregisterCloses dir2 p2 conv1 = true := by
    unfold unregisterCloses
    rw [hp]
    simp only [decide_eq_true_eq]
    refine ⟨by simp, ?_⟩
    have := hrem2
    rw [show conv1.participants = [p1, p2] from hp] at this
    exact this
  have hconv2 : unregisterConvUpdate dir2 p2 conv1 =
      { conv1 with departedAgents := conv1.departedAgents ++ [p2], status := "closed" } := by
    unfold unregisterConvUpdate
    rw [if_pos (by rw [show conv1.participants = [p1, p2] from hp]; simp)]
    simp only [hrem2]
    rfl
  constructor
  · rw [unregisterAgent_conversations hreg2, lookupMap_mapVal, hlook1]
    rw [← hdir2]
    simp [hconv2]
  · rw [unregisterAgent_active hreg2]
    intro hmem
    have := List.mem_filter.1 hmem
    rw [hlook1, ← hdir2] at this
    simp only [hcloses] at this
    simp at this

theorem conversation_closes_after_both_participants_unregistered_witness :
    (lookupMap "c" (unregisterAgent (unregisterAgent pairConvState "P1") "P2").conversations).map
        Conversation.status = some "closed" ∧
      "c" ∉ (unregisterAgent (unregisterAgent pairConvState "P1") "P2").activeConversations :=
  conversation_closes_after_both_participants_unregistered pairConvState "c" "P1" "P2"
    { conversationId := "c", participants := ["P1", "P2"] }
    (by decide) rfl (by decide) (by decide) (by decide) (by decide)

theorem not_mem_filter_ne (a : String) (l : List String) : a ∉ l.filter (· ≠ a) := by
  simp [List.mem_filter]

/-- C7 counterexample: agent B is registered (and so resolved as a
broadcast recipient) but has no registered message handler, so the
broadcast is not delivered to it — delivery reaches only the resolved
recipients that registered a handler. -/
theorem broadcast_skips_recipient_without_handler :
    ((sendMessage 2 broadcastState broadcastMsg).1).map SendOutcome.resolvedRecipients =
        some ["A", "B"] ∧
      ((sendMessage 2 broadcastState broadcastMsg).1).map SendOutcome.deliveredTo =
        some ["A"] ∧
      broadcastState.registered "B" = true := by
  decide

/-- C7 amended: a BROADCAST from a registered agent X resolves its
recipients at send time to every registered agent except X, delivers to
exactly those among them with a registered message handler, and is never
delivered to X itself. -/
theorem broadcast_resolves_all_but_sender_delivers_to_handlers
    (fuel : Nat) (s : CommState) (msg : AgentMessage)
    (hb : msg.type = MessageType.broadcast) (hs : s.registered msg.sender = true) :
    ∃ o, (sendMessage (fuel + 1) s msg).1 = some o ∧
      o.resolvedRecipients = (s.agentDirectory.map Prod.fst).filter (· ≠ msg.sender) ∧
      o.deliveredTo = o.resolvedRecipients.filter (· ∈ s.messageHandlers) ∧
      msg.sender ∉ o.deliveredTo := by
  unfold sendMessage
  rw [if_neg (by simp [hs])]
  rw [if_neg (by simp [hb])]
  rw [if_neg (by simp [hb])]
  dsimp only
  cases hcid : msg.conversationId with
  | some cid =>
    dsimp only
    cases hlc : lookupMap cid s.conversations with
    | some conv =>
      exact ⟨_, rfl, by simp [hb], by simp [hb], by simp [hb, List.mem_filter]⟩
    | none =>
      exact ⟨_, rfl, by simp [hb], by simp [hb], by simp [hb, List.mem_filter]⟩
  | none =>
    exact ⟨_, rfl, by simp [hb], by simp [hb], by simp [hb, List.mem_filter]⟩

theorem broadcast_resolves_all_but_sender_delivers_to_handlers_witness :
    ∃ o, (sendMessage 2 broadcastState broadcastMsg).1 = some o ∧
      o.resolvedRecipients =
        (broadcastState.agentDirectory.map Prod.fst).filter (· ≠ broadcastMsg.sender) ∧
      o.deliveredTo = o.resolvedRecipients.filter (· ∈ broadcastState.messageHandlers) ∧
      broadcastMsg.sender ∉ o.deliveredTo :=
  broadcast_resolves_all_but_sender_delivers_to_handlers 1 broadcastState broadcastMsg
    rfl (by decide)

/-! ## Executor lemmas -/

theorem lookupMap_isSome_iff {α : Type} (k : String) (m : List (String × α)) :
    (lookupMap k m).isSome = true ↔ k ∈ m.map Prod.fst := by
  rw [← not_iff_not, ← lookupMap_eq_none_iff]
  cases lookupMap k m <;> simp

theorem lookupMap_foldl_updMap_isSome {α β : Type} (key : β → String) (val : β → α)
    (id : String) :
    ∀ (l : List β) (init : List (String × α)),
      (lookupMap id (l.foldl (fun rs b => updMap (key b) (val b) rs) init)).isSome = true ↔
        id ∈ l.map key ∨ (lookupMap id init).isSome = true := by
  intro l
  induction l with
  | nil => simp
  | cons b bs ih =>
    intro init
    simp only [List.foldl_cons, List.map_cons, List.mem_cons]
    rw [ih, lookupMap_updMap_isSome]
    tauto

theorem lookupMap_foldl_updMap_not_mem {α β : Type} (key : β → String) (val : β → α) :
    ∀ (l : List β) (init : List (String × α)) (id : String), id ∉ l.map key →
      lookupMap id (l.foldl (fun rs b => updMap (key b) (val b) rs) init) =
        lookupMap id init := by
  intro l
  induction l with
  | nil => intro init id h; rfl
  | cons b bs ih =>
    intro init id h
    simp only [List.map_cons, List.mem_cons] at h
    push_neg at h
    simp only [List.foldl_cons]
    rw [ih _ _ h.2]
    exact lookupMap_updMap_ne _ _ (Ne.symm h.1)

theorem lookupMap_foldl_updMap_self_nodup {α β : Type} (key : β → String) (val : β → α) :
    ∀ (l : List β) (init : List (String × α)) (b : β), b ∈ l → (l.map key).Nodup →
      lookupMap (key b) (l.foldl (fun rs x => updMap (key x) (val x) rs) init) =
        some (val b) := by
  intro l
  induction l with
  | nil => intro init b h; simp at h
  | cons x xs ih =>
    intro init b hb hnd
    simp only [List.map_cons, List.nodup_cons] at hnd
    simp only [List.foldl_cons]
    rcases List.mem_cons.1 hb with hb | hb
    · subst hb
      rw [lookupMap_foldl_updMap_not_mem key val xs _ _ hnd.1]
      exact lookupMap_updMap_self _ _ _
    · exact ih _ b hb hnd.2

theorem mem_updMap {α : Type} {kv : String × α} (k : String) (v : α) :
    ∀ {m : List (String × α)}, kv ∈ updMap k v m → kv = (k, v) ∨ kv ∈ m := by
  intro m
  induction m with
  | nil => simp [updMap]
  | cons x xs ih =>
    simp only [updMap]
    split
    · intro h
      rcases List.mem_cons.1 h with h | h
      · exact Or.inl h
      · exact Or.inr (List.mem_cons_of_mem _ h)
    · intro h
      rcases List.mem_cons.1 h with h | h
      · exact Or.inr (by rw [h]; exact List.mem_cons_self _ _)
      · rcases ih h with h | h
        · exact Or.inl h
        · exact Or.inr (List.mem_cons_of_mem _ h)

theorem mem_keys_updMap {α : Type} (id k : String) (v : α) (m : List (String × α)) :
    id ∈ (updMap k v m).map Prod.fst ↔ id = k ∨ id ∈ m.map Prod.fst := by
  rw [← lookupMap_isSome_iff, ← lookupMap_isSome_iff]
  exact lookupMap_updMap_isSome id k v m

theorem nodup_keys_updMap {α : Type} (k : String) (v : α) :
    ∀ (m : List (String × α)), (m.map Prod.fst).Nodup →
      ((updMap k v m).map Prod.fst).Nodup := by
  intro m
  induction m with
  | nil => simp [updMap]
  | cons x xs ih =>
    obtain ⟨k', v'⟩ := x
    intro hnd
    simp only [List.map_cons, List.nodup_cons] at hnd
    simp only [updMap]
    split
    next h =>
      subst h
      simp only [List.map_cons, List.nodup_cons]
      exact ⟨hnd.1, hnd.2⟩
    next h =>
      simp only [List.map_cons, List.nodup_cons]
      refine ⟨?_, ih hnd.2⟩
      intro hc
      rw [mem_keys_updMap] at hc
      rcases hc with hc | hc
      · exact h hc
      · exact hnd.1 hc

theorem nodup_keys_foldl_updMap {α β : Type} (key : β → String) (val : β → α) :
    ∀ (l : List β) (init : List (String × α)), (init.map Prod.fst).Nodup →
      ((l.foldl (fun m b => updMap (key b) (val b) m) init).map Prod.fst).Nodup := by
  intro l
  induction l with
  | nil => intro init h; exact h
  | cons b bs ih =>
    intro init h
    simp only [List.foldl_cons]
    exact ih _ (nodup_keys_updMap _ _ _ h)

theorem mem_keys_foldl_updMap {α β : Type} (key : β → String) (val : β → α) (id : String) :
    ∀ (l : List β) (init : List (String × α)),
      id ∈ (l.foldl (fun m b => updMap (key b) (val b) m) init).map Prod.fst ↔
        id ∈ l.map key ∨ id ∈ init.map Prod.fst := by
  intro l
  induction l with
  | nil => simp
  | cons b bs ih =>
    intro init
    simp only [List.foldl_cons, List.map_cons, List.mem_cons]
    rw [ih, mem_keys_updMap]
    tauto

theorem buildPending_pairs : ∀ (actions : List Action) (m0 : List (String × Action)),
    (∀ kv ∈ m0, kv.1 = kv.2.actionId) →
    ∀ kv ∈ actions.foldl (fun m a => updMap a.actionId a m) m0, kv.1 = kv.2.actionId := by
  intro actions
  induction actions with
  | nil => intro m0 h kv hkv; exact h kv hkv
  | cons a as ih =>
    intro m0 h kv hkv
    refine ih _ ?_ kv hkv
    intro kv' hkv'
    rcases mem_updMap _ _ hkv' with h' | h'
    · rw [h']
    · exact h kv' h'

theorem buildPending_ids_eq_keys (actions : List Action) :
    (buildPending actions).map (fun a => a.actionId) =
      (actions.foldl (fun m a => updMap a.actionId a m) []).map Prod.fst := by
  unfold buildPending
  rw [List.map_map]
  apply List.map_congr_left
  intro kv hkv
  exact (buildPending_pairs actions [] (by simp) kv hkv).symm

theorem buildPending_ids_iff (actions : List Action) (id : String) :
    id ∈ (buildPending actions).map (fun a => a.actionId) ↔
      id ∈ actions.map (fun a => a.actionId) := by
  rw [buildPending_ids_eq_keys, mem_keys_foldl_updMap]
  simp

theorem buildPending_ids_nodup (actions : List Action) :
    ((buildPending actions).map (fun a => a.actionId)).Nodup := by
  rw [buildPending_ids_eq_keys]
  exact nodup_keys_foldl_updMap _ _ actions [] (by simp)

theorem mem_map_filter_split {α : Type} (f : α → String) (p : α → Bool) (l : List α)
    (id : String) :
    id ∈ l.map f ↔
      id ∈ (l.filter p).map f ∨ id ∈ (l.filter (fun a => ! p a)).map f := by
  simp only [List.mem_map, List.mem_filter]
  constructor
  · rintro ⟨a, ha, rfl⟩
    by_cases hpa : p a
    · exact Or.inl ⟨a, ⟨ha, hpa⟩, rfl⟩
    · exact Or.inr ⟨a, ⟨ha, by simp [hpa]⟩, rfl⟩
  · rintro (⟨a, ⟨ha, -⟩, rfl⟩ | ⟨a, ⟨ha, -⟩, rfl⟩) <;> exact ⟨a, ha, rfl⟩

/-- The frontier loop assigns a result to exactly the ids of its pending
actions (on top of those already in `results`). -/
theorem ewdLoop_lookup_isSome (exec : Action → ActionResult) :
    ∀ (n : Nat) (pending : List Action) (completed : List String)
      (results : List (String × ActionResult)) (id : String), pending.length ≤ n →
      ((lookupMap id (ewdLoop exec pending completed results)).isSome = true ↔
        (id ∈ pending.map (fun a => a.actionId) ∨ (lookupMap id results).isSome = true)) := by
  intro n
  induction n with
  | zero =>
    intro pending completed results id hlen
    have hp : pending = [] := List.eq_nil_of_length_eq_zero (Nat.le_zero.1 hlen)
    subst hp
    rw [ewdLoop.eq_def, dif_pos rfl]
    simp
  | succ n ih =>
    intro pending completed results id hlen
    by_cases hp : pending = []
    · subst hp
      rw [ewdLoop.eq_def, dif_pos rfl]
      simp
    · rw [ewdLoop.eq_def, dif_neg hp]
      dsimp only
      by_cases hex : List.filter (readyAll completed) pending = []
      · rw [dif_pos hex]
        rw [lookupMap_foldl_updMap_isSome (fun a => a.actionId)
          (fun a => circFail a.actionId) id pending results]
      · rw [dif_neg hex]
        have h1 := List.length_eq_length_filter_add (l := pending) (readyAll completed)
        have h2 : 0 < (List.filter (readyAll completed) pending).length := by
          cases hc : List.filter (readyAll completed) pending with
          | nil => exact absurd hc hex
          | cons x xs => simp [hc]
        rw [ih _ _ _ _ (by omega)]
        rw [lookupMap_foldl_updMap_isSome Prod.fst Prod.snd]
        simp only [List.map_map]
        have hbatch : (List.map (Prod.fst ∘ fun a => (a.actionId, exec a))
            (List.filter (readyAll completed) pending)) =
            (List.filter (readyAll completed) pending).map (fun a => a.actionId) := by
          apply List.map_congr_left
          intro a ha
          rfl
        rw [hbatch]
        rw [mem_map_filter_split (fun a => a.actionId) (readyAll completed) pending id]
        tauto

/-- A pending action with a dependency outside both the completed set and
the pending ids can never join the frontier: the loop eventually stalls
and gives it the explicit circular-or-missing-dependency failure. -/
theorem ewdLoop_stuck (exec : Action → ActionResult) :
    ∀ (n : Nat) (pending : List Action) (completed : List String)
      (results : List (String × ActionResult)) (a : Action) (d : String),
      pending.length ≤ n → a ∈ pending →
      ((pending.map fun a => a.actionId)).Nodup →
      d ∈ a.dependencies → d ∉ completed →
      d ∉ pending.map (fun a => a.actionId) →
      lookupMap a.actionId (ewdLoop exec pending completed results) =
        some (circFail a.actionId) := by
  intro n
  induction n with
  | zero =>
    intro pending completed results a d hlen ha
    rw [List.eq_nil_of_length_eq_zero (Nat.le_zero.1 hlen)] at ha
    simp at ha
  | succ n ih =>
    intro pending completed results a d hlen ha hnd hd hdc hdp
    have hnready : readyAll completed a = false := by
      cases hr : readyAll completed a with
      | false => rfl
      | true =>
        have := List.all_eq_true.1 hr d hd
        exact absurd (by simpa using this) hdc
    by_cases hp : pending = []
    · subst hp; simp at ha
    · rw [ewdLoop.eq_def, dif_neg hp]
      dsimp only
      by_cases hex : List.filter (readyAll completed) pending = []
      · rw [dif_pos hex]
        exact lookupMap_foldl_updMap_self_nodup (fun a => a.actionId)
          (fun a => circFail a.actionId) pending results a ha hnd
      · rw [dif_neg hex]
        have h1 := List.length_eq_length_filter_add (l := pending) (readyAll completed)
        have h2 : 0 < (List.filter (readyAll completed) pending).length := by
          cases hc : List.filter (readyAll completed) pending with
          | nil => exact absurd hc hex
          | cons x xs => simp [hc]
        apply ih
        · omega
        · exact List.mem_filter.2 ⟨ha, by simp [hnready]⟩
        · exact List.Nodup.sublist
            (List.Sublist.map _ (List.filter_sublist _)) hnd
        · exact hd
        · intro hmem
          rcases List.mem_append.1 hmem with hc | hc
          · exact hdc hc
          · rw [List.mem_map] at hc
            obtain ⟨kv, hkv, hfst⟩ := hc
            have hkv2 := (List.mem_filter.1 hkv).1
            rw [List.mem_map] at hkv2
            obtain ⟨x, hx, rfl⟩ := hkv2
            apply hdp
            rw [List.mem_map]
            exact ⟨x, (List.mem_filter.1 hx).1, by simpa using hfst⟩
        · intro hmem
          rw [List.mem_map] at hmem
          obtain ⟨x, hx, hid⟩ := hmem
          apply hdp
          rw [List.mem_map]
          exact ⟨x, (List.mem_filter.1 hx).1, hid⟩

theorem executeActionFuel_alwaysRaise_none (fuel : Nat) :
    ∀ (s : ExecState) (depth : Nat), retryableAction.type ∈ s.handlers →
      executeActionFuel alwaysRaise fuel s retryableAction depth = none := by
  induction fuel with
  | zero => intro s depth h; rfl
  | succ n ih =>
    intro s depth h
    unfold executeActionFuel
    rw [if_neg (by simpa using h)]
    dsimp [alwaysRaise]
    rw [if_pos (by refine ⟨rfl, by decide⟩)]
    rw [ih s (depth + 1) h]

/-- C8 counterexample: `execute_with_dependencies` on the single
retryable action whose handler raises on every attempt never returns —
the retry path of `execute_action` recurses with a fresh local
`attempts = 1` at every level, so no amount of fuel completes the call
(in the source, the coroutine loops forever through
`_retry_action`/`execute_action`). -/
theorem execute_with_dependencies_diverges_on_always_raising_retryable :
    ewdDiverges alwaysRaise {} [retryableAction] := by
  intro fuel
  cases fuel with
  | zero => rfl
  | succ n =>
    have hact : executeActionFuel alwaysRaise n {} retryableAction 0 = none :=
      executeActionFuel_alwaysRaise_none n {} 0 (by decide)
    unfold executeWithDepsFuel
    rw [show buildPending [retryableAction] = [retryableAction] from by decide]
    unfold ewdLoopFuel
    dsimp only
    rw [show List.filter (readyAll []) [retryableAction] = [retryableAction] from by decide]
    rw [if_neg (by decide)]
    simp only [executeActionsFuel, List.foldl_cons, List.foldl_nil, hact]

/-- A blocked set of ids: every pending action whose id is in `B` has a
dependency in `B`, and nothing in `B` is completed.  Ids in `B` can then
never enter the completed set — an executed action has all dependencies
completed, which no action in `B` has — so every pending action in `B`
misses every frontier and ends with the explicit
circular-or-missing-dependency failure.  Dependency cycles (take `B` =
the cycle's ids) and permanently-missing dependencies (take `B` = the
action's id and the missing id) are both instances. -/
theorem ewdLoop_blocked (exec : Action → ActionResult) :
    ∀ (n : Nat) (pending : List Action) (completed : List String)
      (results : List (String × ActionResult)) (x : Action) (B : List String),
      pending.length ≤ n → x ∈ pending →
      ((pending.map fun a => a.actionId)).Nodup →
      (∀ id ∈ B, id ∉ completed) →
      (∀ y ∈ pending, y.actionId ∈ B → ∃ d ∈ y.dependencies, d ∈ B) →
      x.actionId ∈ B →
      lookupMap x.actionId (ewdLoop exec pending completed results) =
        some (circFail x.actionId) := by
  intro n
  induction n with
  | zero =>
    intro pending completed results x B hlen hx
    rw [List.eq_nil_of_length_eq_zero (Nat.le_zero.1 hlen)] at hx
    simp at hx
  | succ n ih =>
    intro pending completed results x B hlen hx hnd hBc hBdep hxB
    have hnotready : ∀ y ∈ pending, y.actionId ∈ B → readyAll completed y = false := by
      intro y hy hyB
      obtain ⟨d, hd, hdB⟩ := hBdep y hy hyB
      cases hr : readyAll completed y with
      | false => rfl
      | true =>
        have := List.all_eq_true.1 hr d hd
        exact absurd (by simpa using this) (hBc d hdB)
    by_cases hp : pending = []
    · subst hp; simp at hx
    · rw [ewdLoop.eq_def, dif_neg hp]
      dsimp only
      by_cases hex : List.filter (readyAll completed) pending = []
      · rw [dif_pos hex]
        exact lookupMap_foldl_updMap_self_nodup (fun a => a.actionId)
          (fun a => circFail a.actionId) pending results x hx hnd
      · rw [dif_neg hex]
        have h1 := List.length_eq_length_filter_add (l := pending) (readyAll completed)
        have h2 : 0 < (List.filter (readyAll completed) pending).length := by
          cases hc : List.filter (readyAll completed) pending with
          | nil => exact absurd hc hex
          | cons z zs => simp [hc]
        apply ih
        · omega
        · exact List.mem_filter.2 ⟨hx, by simp [hnotready x hx hxB]⟩
        · exact List.Nodup.sublist (List.Sublist.map _ (List.filter_sublist _)) hnd
        · intro id hidB hmem
          rcases List.mem_append.1 hmem with hc | hc
          · exact hBc id hidB hc
          · rw [List.mem_map] at hc
            obtain ⟨kv, hkv, hfst⟩ := hc
            have hkv2 := (List.mem_filter.1 hkv).1
            rw [List.mem_map] at hkv2
            obtain ⟨y, hy, rfl⟩ := hkv2
            obtain ⟨hymem, hyready⟩ := List.mem_filter.1 hy
            have hyid : y.actionId = id := by simpa using hfst
            rw [hnotready y hymem (hyid ▸ hidB)] at hyready
            simp at hyready
        · intro y hy hyB
          exact hBdep y (List.mem_filter.1 hy).1 hyB
        · exact hxB

/-- C8 amended: provided each per-action execution returns a result,
`execute_with_dependencies` terminates and returns a map with exactly one
result per input action id — ids outside the input never appear and every
input action's id is present, so no single failing action deprives the
others of theirs.  Every action whose dependencies can never be satisfied
receives the explicit circular-or-missing-dependency failure result:
any member of a blocked set `B` of ids (each pending action with an id in
`B` has a dependency in `B` — covering dependency cycles and, as the last
conjunct spells out, permanently-missing dependency ids) ends with
exactly that failure result. -/
theorem execute_with_dependencies_total_results (exec : Action → ActionResult)
    (actions : List Action) :
    (∀ a ∈ actions,
        (lookupMap a.actionId (executeWithDependencies exec actions)).isSome = true) ∧
      (∀ id : String,
        (lookupMap id (executeWithDependencies exec actions)).isSome = true →
          id ∈ actions.map (fun a => a.actionId)) ∧
      (∀ B : List String,
        (∀ y ∈ buildPending actions, y.actionId ∈ B → ∃ d ∈ y.dependencies, d ∈ B) →
        ∀ a ∈ buildPending actions, a.actionId ∈ B →
          lookupMap a.actionId (executeWithDependencies exec actions) =
            some (circFail a.actionId)) ∧
      (∀ a ∈ buildPending actions, ∀ d ∈ a.dependencies,
        d ∉ actions.map (fun a => a.actionId) →
          lookupMap a.actionId (executeWithDependencies exec actions) =
            some (circFail a.actionId)) := by
  unfold executeWithDependencies
  refine ⟨?_, ?_, ?_, ?_⟩
  · intro a ha
    rw [ewdLoop_lookup_isSome exec (buildPending actions).length _ _ _ _ le_rfl]
    left
    rw [buildPending_ids_iff]
    exact List.mem_map.2 ⟨a, ha, rfl⟩
  · intro id h
    rw [ewdLoop_lookup_isSome exec (buildPending actions).length _ _ _ _ le_rfl] at h
    rcases h with h | h
    · exact (buildPending_ids_iff actions id).1 h
    · simp [lookupMap] at h
  · intro B hB a ha haB
    exact ewdLoop_blocked exec (buildPending actions).length _ _ _ a B le_rfl ha
      (buildPending_ids_nodup actions) (by simp) hB haB
  · intro a ha d hd hdm
    exact ewdLoop_stuck exec (buildPending actions).length _ _ _ a d le_rfl ha
      (buildPending_ids_nodup actions) hd (by simp)
      (fun hc => hdm ((buildPending_ids_iff actions d).1 hc))

theorem execute_with_dependencies_total_results_witness :
    lookupMap "a" (executeWithDependencies simpleExec ewdCycleActions) =
        some (circFail "a") ∧
      lookupMap "b" (executeWithDependencies simpleExec ewdCycleActions) =
        some (circFail "b") ∧
      lookupMap "d" (executeWithDependencies simpleExec ewdCycleActions) =
        some (circFail "d") ∧
      (lookupMap "c" (executeWithDependencies simpleExec ewdCycleActions)).isSome = true := by
  refine ⟨?_, ?_, ?_, ?_⟩
  · exact (execute_with_dependencies_total_results simpleExec ewdCycleActions).2.2.1
      ["a", "b"] (by decide)
      { actionId := "a", type := .custom, dependencies := ["b"] } (by decide) (by decide)
  · exact (execute_with_dependencies_total_results simpleExec ewdCycleActions).2.2.1
      ["a", "b"] (by decide)
      { actionId := "b", type := .custom, dependencies := ["a"] } (by decide) (by decide)
  · exact (execute_with_dependencies_total_results simpleExec ewdCycleActions).2.2.2
      { actionId := "d", type := .custom, dependencies := ["zz"] } (by decide)
      "zz" (by decide) (by decide)
  · exact (execute_with_dependencies_total_results simpleExec ewdCycleActions).1
      { actionId := "c", type := .custom } (by decide)

/-! ## Decision-parser lemmas -/

theorem containsSeq_of_leadsWith {pat cs : List Char} (h : leadsWith pat cs = true) :
    containsSeq pat cs = true := by
  cases cs with
  | nil => simpa [containsSeq] using h
  | cons c rest => simp [containsSeq, h]

theorem containsSeq_cons {pat rest : List Char} (c : Char)
    (h : containsSeq pat rest = true) : containsSeq pat (c :: rest) = true := by
  simp [containsSeq, h]

theorem containsSeq_dropWhile {pat : List Char} (p : Char → Bool) :
    ∀ {cs : List Char}, containsSeq pat (cs.dropWhile p) = true →
      containsSeq pat cs = true := by
  intro cs
  induction cs with
  | nil => simp [List.dropWhile]
  | cons c rest ih =>
    intro h
    by_cases hp : p c
    · rw [List.dropWhile_cons_of_pos hp] at h
      exact containsSeq_cons c (ih h)
    · rwa [List.dropWhile_cons_of_neg hp] at h

theorem containsSeq_of_sectionMatchAt {marker cs r : List Char}
    (h : sectionMatchAt marker cs = some r) : containsSeq marker cs = true := by
  unfold sectionMatchAt at h
  dsimp only at h
  split at h
  next hlw => exact containsSeq_dropWhile pySpace (containsSeq_of_leadsWith hlw)
  next => simp at h

theorem containsSeq_of_sectionSearchAux {marker : List Char} :
    ∀ {cs r : List Char}, sectionSearchAux marker cs = some r →
      containsSeq marker cs = true := by
  intro cs
  induction cs with
  | nil => intro r h; simp [sectionSearchAux] at h
  | cons c rest ih =>
    intro r h
    unfold sectionSearchAux at h
    split at h
    · split at h
      next hm => exact containsSeq_cons c (containsSeq_of_sectionMatchAt hm)
      next => exact containsSeq_cons c (ih h)
    · exact containsSeq_cons c (ih h)

/-- When the literal section marker does not occur in the text, the
section search fails (the regex cannot match without its literal part). -/
theorem sectionSearch_eq_none {marker cs : List Char}
    (h : containsSeq marker cs = false) : sectionSearch marker cs = none := by
  unfold sectionSearch
  cases hm : sectionMatchAt marker cs with
  | some r => rw [containsSeq_of_sectionMatchAt hm] at h; simp at h
  | none =>
    cases ha : sectionSearchAux marker cs with
    | some r => rw [containsSeq_of_sectionSearchAux ha] at h; simp at h
    | none => rfl

theorem containsSeq_of_confMatchAt {marker cs : List Char} {v : ℚ}
    (h : confMatchAt marker cs = some v) : containsSeq marker cs = true := by
  unfold confMatchAt at h
  dsimp only at h
  split at h
  next hlw => exact containsSeq_dropWhile pySpace (containsSeq_of_leadsWith hlw)
  next => simp at h

theorem containsSeq_of_confSearchAux {marker : List Char} :
    ∀ {cs : List Char} {v : ℚ}, confSearchAux marker cs = some v →
      containsSeq marker cs = true := by
  intro cs
  induction cs with
  | nil => intro v h; simp [confSearchAux] at h
  | cons c rest ih =>
    intro v h
    unfold confSearchAux at h
    split at h
    · split at h
      next hm => exact containsSeq_cons c (containsSeq_of_confMatchAt hm)
      next => exact containsSeq_cons c (ih h)
    · exact containsSeq_cons c (ih h)

theorem confSearch_eq_none {marker cs : List Char}
    (h : containsSeq marker cs = false) : confSearch marker cs = none := by
  unfold confSearch
  cases hm : confMatchAt marker cs with
  | some v => rw [containsSeq_of_confMatchAt hm] at h; simp at h
  | none =>
    cases ha : confSearchAux marker cs with
    | some v => rw [containsSeq_of_confSearchAux ha] at h; simp at h
    | none => rfl

/-- C9: the decision parser is tolerant.  When the literal
`**Confidence:**` marker is absent from the response, the confidence
defaults to 0.5; when the Decision/Reasoning section is found with
non-empty content, the result carries exactly that stripped text (in
particular non-empty); absent sections produce the empty/default fields —
the parse is a total function, never an error. -/
theorem decision_parser_defaults_and_sections (txt wid : String) (tid : Option String)
    (now : Nat) (habs : containsSeq confidenceMarker txt.data = false) :
    (parseDecisionFromResponse txt wid tid now).confidence = 1 / 2 ∧
      (∀ c, sectionContent decisionMarker txt.data = some c → c ≠ [] →
        (parseDecisionFromResponse txt wid tid now).decision = String.mk c ∧
          (parseDecisionFromResponse txt wid tid now).decision ≠ "") ∧
      (∀ c, sectionContent reasoningMarker txt.data = some c → c ≠ [] →
        (parseDecisionFromResponse txt wid tid now).reasoning = String.mk c ∧
          (parseDecisionFromResponse txt wid tid now).reasoning ≠ "") ∧
      (sectionContent decisionMarker txt.data = none →
        (parseDecisionFromResponse txt wid tid now).decision = "") ∧
      (sectionContent reasoningMarker txt.data = none →
        (parseDecisionFromResponse txt wid tid now).reasoning = "") ∧
      (sectionContent alternativesMarker txt.data = none →
        (parseDecisionFromResponse txt wid tid now).alternatives = []) ∧
      (sectionContent actionsMarker txt.data = none →
        (parseDecisionFromResponse txt wid tid now).actions = []) := by
  have hconf : confSearch confidenceMarker txt.data = none := confSearch_eq_none habs
  unfold parseDecisionFromResponse
  refine ⟨?_, ?_, ?_, ?_, ?_, ?_, ?_⟩
  · dsimp only
    rw [hconf]
  · intro c hc hne
    dsimp only
    rw [hc]
    exact ⟨rfl, fun hs => hne (congrArg String.data hs)⟩
  · intro c hc hne
    dsimp only
    rw [hc]
    exact ⟨rfl, fun hs => hne (congrArg String.data hs)⟩
  · intro hc
    dsimp only
    rw [hc]
  · intro hc
    dsimp only
    rw [hc]
  · intro hc
    dsimp only
    rw [hc]
  · intro hc
    dsimp only
    rw [hc]

set_option maxRecDepth 80000 in
theorem decision_parser_defaults_and_sections_witness :
    ((parseDecisionFromResponse sampleResponse "wf1" none 0).confidence = 1 / 2 ∧
        (∀ c, sectionContent decisionMarker sampleResponse.data = some c → c ≠ [] →
          (parseDecisionFromResponse sampleResponse "wf1" none 0).decision = String.mk c ∧
            (parseDecisionFromResponse sampleResponse "wf1" none 0).decision ≠ "") ∧
        (∀ c, sectionContent reasoningMarker sampleResponse.data = some c → c ≠ [] →
          (parseDecisionFromResponse sampleResponse "wf1" none 0).reasoning = String.mk c ∧
            (parseDecisionFromResponse sampleResponse "wf1" none 0).reasoning ≠ "") ∧
        (sectionContent decisionMarker sampleResponse.data = none →
          (parseDecisionFromResponse sampleResponse "wf1" none 0).decision = "") ∧
        (sectionContent reasoningMarker sampleResponse.data = none →
          (parseDecisionFromResponse sampleResponse "wf1" none 0).reasoning = "") ∧
        (sectionContent alternativesMarker sampleResponse.data = none →
          (parseDecisionFromResponse sampleResponse "wf1" none 0).alternatives = []) ∧
        (sectionContent actionsMarker sampleResponse.data = none →
          (parseDecisionFromResponse sampleResponse "wf1" none 0).actions = [])) ∧
      (parseDecisionFromResponse sampleResponse "wf1" none 0).decision = "Ship it" ∧
      (parseDecisionFromResponse sampleResponse "wf1" none 0).reasoning =
        "Looks correct and safe" ∧
      (parseDecisionFromResponse sampleResponse "wf1" none 0).actions = ["Deploy"] :=
  ⟨decision_parser_defaults_and_sections sampleResponse "wf1" none 0 (by decide),
    by decide, by decide, by decide⟩

/-- C10: executing an action whose type has no registered handler returns
(never raises) a failure `ActionResult` whose error names the
unregistered action type, with `attempts = 1` and zero duration, and
leaves the executor's stored results — indeed the whole executor state —
untouched. -/
theorem execute_action_unregistered_type_result
    (h : Action → Nat → HandlerOutcome) (fuel : Nat) (s : ExecState) (a : Action)
    (hreg : a.type ∉ s.handlers) :
    executeActionFuel h (fuel + 1) s a 0 =
      some ({ actionId := a.actionId, success := false,
              error := some (noHandlerMsg a.type),
              durationSeconds := 0, attempts := 1 }, s) ∧
      noHandlerMsg a.type = "No handler registered for action type: " ++ a.type.value := by
  constructor
  · unfold executeActionFuel
    rw [if_pos hreg]
  · rfl

theorem execute_action_unregistered_type_result_witness :
    executeActionFuel alwaysRaise 1 { handlers := [ActionType.email] }
        { actionId := "x", type := .custom } 0 =
      some ({ actionId := "x", success := false,
              error := some (noHandlerMsg ActionType.custom),
              durationSeconds := 0, attempts := 1 },
        { handlers := [ActionType.email] }) ∧
      noHandlerMsg ActionType.custom =
        "No handler registered for action type: " ++ ActionType.custom.value :=
  execute_action_unregistered_type_result alwaysRaise 0 { handlers := [ActionType.email] }
    { actionId := "x", type := .custom } (by decide)

end OMRA
